import Mathlib

/-
Formal model of the commerce transaction core of the storefront backend
(src/services/web_bridge.py): product/inventory normalization, the purchase
pipeline, stock adjustment, product upsert, signed session tokens, the login
OTP second factor, and the payment-confirmation entry checks.

Modelling conventions:
- Python `str` values are Lean `String`s; `str.strip()` / `str.lower()` are
  modelled for the ASCII character classes Python uses on this data.
- Python `float` money amounts are modelled as rationals; `round(x, 2)` is
  modelled as round-half-to-even at two decimals.
- A JSON value that is "missing or not of the expected shape" is an `Option`
  `none`; dictionaries are association lists whose insert overwrites in place.
- Handlers are pure functions from the loaded state to a response plus the
  state they write back (`none` when the handler does not write).
-/

set_option autoImplicit false

namespace Shop

/-- Characters removed by Python `str.strip()` (ASCII whitespace class). -/
def isPySpace (c : Char) : Bool :=
  c == ' ' || c == '\t' || c == '\n' || c == '\r' || c == Char.ofNat 11 || c == Char.ofNat 12

/-- Strip on character lists: drop whitespace from both ends. -/
def stripList (l : List Char) : List Char :=
  ((l.dropWhile isPySpace).reverse.dropWhile isPySpace).reverse

/-- Python `str.strip()`. -/
def pyStrip (s : String) : String :=
  String.mk (stripList s.data)

/-- Python `str.lower()` on the ASCII range (`Char.toLower` maps A-Z only). -/
def pyLower (s : String) : String :=
  String.mk (s.data.map Char.toLower)

/-- The list comprehension `[str(e) for e in l if str(e).strip()]`:
keep entries whose strip is non-empty, without stripping them. -/
def keepNonblank (l : List String) : List String :=
  l.filter (fun e => pyStrip e != "")

/-- The list comprehension `[str(e).strip() for e in l if str(e).strip()]`:
keep entries whose strip is non-empty, stripped. -/
def stripEntries (l : List String) : List String :=
  l.filterMap (fun e => let s := pyStrip e; if s = "" then none else some s)

/-- Round-half-to-even of a rational to an integer (Python `round` tie rule). -/
def roundHalfEven (x : ℚ) : ℤ :=
  let f : ℤ := Rat.floor x
  let r : ℚ := x - (f : ℚ)
  if r < 1/2 then f
  else if 1/2 < r then f + 1
  else if f % 2 = 0 then f else f + 1

/-- Python `round(x, 2)` on a money amount. -/
def round2 (x : ℚ) : ℚ :=
  ((roundHalfEven (x * 100) : ℤ) : ℚ) / 100

/-- A product tier document. Fields not involved in the verified behaviour
(description, image, duration) are omitted; `none` marks a key that is
missing or not of the expected JSON shape. -/
structure Tier where
  id : String := ""
  name : String := ""
  price : Option ℚ := none
  originalPrice : Option ℚ := none
  stock : Option ℤ := none
  inventory : Option (List String) := none
  deriving DecidableEq, Repr

/-- A product document. Presentation-only fields are omitted, as in `Tier`. -/
structure Product where
  id : String := ""
  name : String := ""
  price : Option ℚ := none
  originalPrice : Option ℚ := none
  stock : Option ℤ := none
  inventory : Option (List String) := none
  tiers : Option (List Tier) := none
  deriving DecidableEq, Repr

/-- `_normalize_tier`: strip id/name, default prices, recompute stock as the
length of the cleaned inventory list. -/
def normalizeTier (t : Tier) : Tier :=
  let inv := stripEntries (t.inventory.getD [])
  { id := pyStrip t.id
    name := pyStrip t.name
    price := some (t.price.getD 0)
    originalPrice := some (t.originalPrice.getD 0)
    stock := some (inv.length : ℤ)
    inventory := some inv }

/-- `_compute_product_stock`: tiered products sum the per-tier deliverable
counts (falling back to the tier's numeric stock when its inventory is not a
list, which we use as the model of a malformed inventory value); untiered
products count their own cleaned inventory. -/
def computeProductStock (p : Product) : ℤ :=
  match p.tiers with
  | some (t :: ts) =>
      let total := (t :: ts).foldl
        (fun acc tier =>
          acc + match tier.inventory with
                | some l => ((stripEntries l).length : ℤ)
                | none => tier.stock.getD 0)
        0
      max 0 total
  | _ =>
      match p.inventory with
      | some l => ((stripEntries l).length : ℤ)
      | none => 0

/-- `_normalize_product`: canonicalize every field and derive `stock` from the
normalized tier inventories / own inventory. -/
def normalizeProduct (p : Product) : Product :=
  let ntiers := (p.tiers.getD []).filterMap
    (fun t => let nt := normalizeTier t; if nt.id = "" then none else some nt)
  let ninv := stripEntries (p.inventory.getD [])
  let stockVal := computeProductStock { tiers := some ntiers, inventory := some ninv }
  { id := pyStrip p.id
    name := pyStrip p.name
    price := some (p.price.getD 0)
    originalPrice := some (p.originalPrice.getD 0)
    stock := some stockVal
    inventory := some ninv
    tiers := some ntiers }

/-- `_find_tier`: first tier whose stripped id equals the given id. -/
def findTier (p : Product) (tierId : String) : Option Tier :=
  (p.tiers.getD []).find? (fun t => pyStrip t.id = tierId)

/-- Mutating the tier object returned by `_find_tier` updates the first
matching tier inside the product's tier list. -/
def updateFirstTier (f : Tier → Tier) (tierId : String) : List Tier → List Tier
  | [] => []
  | t :: ts => if pyStrip t.id = tierId then f t :: ts else t :: updateFirstTier f tierId ts

/-- `_public_product`: drop inventory arrays, keep (defaulted) stock counters. -/
def publicProduct (p : Product) : Product :=
  { p with
    inventory := none
    tiers := match p.tiers with
      | some ts => some (ts.map (fun t => { t with inventory := none, stock := some (t.stock.getD 0) }))
      | none => none }

/-- `_load_products`: every stored document is normalized on load. -/
def loadProducts (stored : List Product) : List Product :=
  stored.map normalizeProduct

/-- Python dict assignment on an association list: overwrite in place if the
key exists, else append. -/
def mapInsert {α : Type} (m : List (String × α)) (k : String) (v : α) : List (String × α) :=
  if m.any (fun kv => kv.1 = k) then m.map (fun kv => if kv.1 = k then (k, v) else kv)
  else m ++ [(k, v)]

/-- Python dict lookup on an association list. -/
def mapLookup {α : Type} (m : List (String × α)) (k : String) : Option α :=
  (m.find? (fun kv => kv.1 = k)).map Prod.snd

/-- The `products_by_id` dict comprehension keyed by product id. -/
def buildProductsById (ps : List Product) : List (String × Product) :=
  ps.foldl (fun m p => mapInsert m p.id p) []

/-- An error JSON response: HTTP status, message, and the offending
product/tier ids when the handler reports them. -/
structure ErrResp where
  status : Nat
  message : String := ""
  productId : String := ""
  tierId : String := ""
  deriving DecidableEq, Repr

/-- One cart/order line as a loose JSON object. Client-controlled fields the
server ignores (`price`, `originalPrice`) are carried so that theorems can
quantify over forged values. Presentation-only fields are omitted. -/
structure Item where
  id : String := ""
  productId : String := ""
  tierId : String := ""
  quantity : Option ℤ := none
  price : Option ℚ := none
  originalPrice : Option ℚ := none
  name : String := ""
  tierName : String := ""
  deriving DecidableEq, Repr

/-- Resolution of a line's product id: `productId` falling back to `id`,
stripped, with a `::tierId` suffix split off when no explicit productId was
given. -/
def itemResolvedId (it : Item) : String :=
  let base := if it.productId ≠ "" then it.productId else it.id
  let s := pyStrip base
  if pyStrip it.productId = "" ∧ (s.splitOn "::").length > 1 then
    pyStrip ((s.splitOn "::").headD "")
  else s

/-- The credential-map key of a line: its stripped id, else
`productId::tierId`, else `productId`. -/
def credKey (it : Item) : String :=
  let lineId := pyStrip it.id
  if lineId ≠ "" then lineId
  else if pyStrip it.tierId ≠ "" then itemResolvedId it ++ "::" ++ pyStrip it.tierId
  else itemResolvedId it

/-- A user record (third-party-identity fields omitted). -/
structure UserData where
  id : String := ""
  email : String := ""
  role : String := ""
  createdAt : String := ""
  deriving DecidableEq, Repr

/-- The sanitized copy of the purchasing user stored on an order. -/
def safeUserData (u : UserData) : UserData :=
  { id := pyStrip u.id
    email := pyLower (pyStrip u.email)
    role := if pyLower (pyStrip u.role) = "admin" then "admin" else "user"
    createdAt := pyStrip u.createdAt }

/-- An order record. `createdAt` models the creation timestamp. -/
structure Order where
  id : String := ""
  userId : String := ""
  createdAt : ℤ := 0
  paymentMethod : String := ""
  user : UserData := {}
  items : List Item := []
  total : ℚ := 0
  status : String := ""
  credentials : List (String × String) := []
  deriving DecidableEq, Repr

/-- The order object of a checkout request: client-supplied id, raw item
list (`none` when not a list), and a client-supplied total the server
discards. -/
structure OrderData where
  id : String := ""
  items : Option (List Item) := none
  total : ℚ := 0
  deriving DecidableEq, Repr

/-- Per-item body of `_prepare_order_items`: resolve ids, recompute the unit
price from the current product/tier, accumulate the server-side total. -/
def prepareGo (byId : List (String × Product)) :
    List Item → List Item → ℚ → Except ErrResp (List Item × ℚ)
  | [], acc, tot => .ok (acc.reverse, round2 tot)
  | it :: rest, acc, tot =>
    let itemId := itemResolvedId it
    let tierId := pyStrip it.tierId
    let qty := it.quantity.getD 0
    if itemId = "" ∨ qty ≤ 0 then
      .error { status := 400, message := "invalid item id or quantity" }
    else
      match mapLookup byId itemId with
      | none => .error { status := 404, message := "product " ++ itemId ++ " not found" }
      | some product =>
        let displayName0 := pyStrip (if product.name ≠ "" then product.name else itemId)
        let lineId := if pyStrip it.id ≠ "" then pyStrip it.id
          else if tierId ≠ "" then itemId ++ "::" ++ tierId else itemId
        if tierId = "" then
          let unitPrice := product.price.getD 0
          let originalPrice := product.originalPrice.getD 0
          if unitPrice ≤ 0 then
            .error { status := 400,
                     message := "invalid price configured for " ++
                       (if displayName0 ≠ "" then displayName0 else itemId) }
          else
            prepareGo byId rest
              ({ id := lineId, productId := itemId, name := displayName0,
                 quantity := some qty, price := some (round2 unitPrice),
                 originalPrice := some (round2 originalPrice),
                 tierId := tierId, tierName := "" } :: acc)
              (tot + unitPrice * (qty : ℚ))
        else
          match findTier product tierId with
          | none => .error { status := 404, message := "tier " ++ tierId ++ " not found for " ++ itemId }
          | some tier =>
            let tierName := pyStrip tier.name
            let displayName := if tierName ≠ "" then displayName0 ++ " " ++ tierName else displayName0
            let unitPrice := tier.price.getD 0
            let originalPrice := tier.originalPrice.getD 0
            if unitPrice ≤ 0 then
              .error { status := 400,
                       message := "invalid price configured for " ++
                         (if displayName ≠ "" then displayName else itemId) }
            else
              prepareGo byId rest
                ({ id := lineId, productId := itemId, name := displayName,
                   quantity := some qty, price := some (round2 unitPrice),
                   originalPrice := some (round2 originalPrice),
                   tierId := tierId, tierName := tierName } :: acc)
                (tot + unitPrice * (qty : ℚ))

/-- `_prepare_order_items`: reject a missing/empty item list, then normalize
every line against the freshly loaded products. -/
def prepareOrderItems (storedProducts : List Product) (rawItems : Option (List Item)) :
    Except ErrResp (List Item × ℚ) :=
  match rawItems with
  | none => .error { status := 400, message := "order items are required" }
  | some [] => .error { status := 400, message := "order items are required" }
  | some (i :: rest) =>
      prepareGo (buildProductsById (loadProducts storedProducts)) (i :: rest) [] 0

/-- The duplicate-order owner test of `_process_purchase`. -/
def sameOwner (userData : UserData) (existing : Order) : Bool :=
  let existingUserId := pyStrip existing.userId
  let existingEmail := pyLower (pyStrip existing.user.email)
  let currentUserId := pyStrip userData.id
  let currentEmail := pyLower (pyStrip userData.email)
  (currentUserId != "" && existingUserId == currentUserId) ||
  (currentEmail != "" && existingEmail == currentEmail)

/-- The reservation loop of `_process_purchase`: validate every line and check
`len(inventory) >= quantity` for each, before anything is mutated. Returns the
first failure. -/
def reserveCheck (byId : List (String × Product)) : List Item → Option ErrResp
  | [] => none
  | it :: rest =>
    let itemId := itemResolvedId it
    let tierId := pyStrip it.tierId
    let qty := it.quantity.getD 0
    if itemId = "" ∨ qty ≤ 0 then
      some { status := 400, message := "invalid item id or quantity" }
    else
      match mapLookup byId itemId with
      | none => some { status := 404, message := "product " ++ itemId ++ " not found" }
      | some product =>
        if tierId = "" then
          let inv := stripEntries (product.inventory.getD [])
          if (inv.length : ℤ) < qty then
            some { status := 409,
                   message := "not enough deliverable stock for " ++ product.name ++
                     ". Add stock keys in admin.",
                   productId := itemId }
          else reserveCheck byId rest
        else
          match findTier product tierId with
          | none => some { status := 404, message := "tier " ++ tierId ++ " not found for " ++ itemId }
          | some tier =>
            let inv := stripEntries (tier.inventory.getD [])
            if (inv.length : ℤ) < qty then
              some { status := 409,
                     message := "not enough deliverable stock for " ++ product.name ++
                       " - " ++ tier.name ++ ".",
                     productId := itemId, tierId := tierId }
            else reserveCheck byId rest

/-- The allocation loop of `_process_purchase`: take the first `quantity`
entries of each line's inventory as the delivered credentials and write the
remainder back. The `none` product-lookup branch models the KeyError the
Python source would raise there; it is unreachable once `reserveCheck`
passed. -/
def allocateGo (byId : List (String × Product)) (creds : List (String × String)) :
    List Item → Except ErrResp (List (String × Product) × List (String × String))
  | [] => .ok (byId, creds)
  | it :: rest =>
    let itemId := itemResolvedId it
    let tierId := pyStrip it.tierId
    let qty := it.quantity.getD 0
    match mapLookup byId itemId with
    | none => .error { status := 500, message := "product lookup failed" }
    | some product =>
      if tierId = "" then
        let inv := stripEntries (product.inventory.getD [])
        let delivered := inv.take qty.toNat
        let remaining := inv.drop qty.toNat
        let product1 := { product with inventory := some remaining,
                                       stock := some (remaining.length : ℤ) }
        allocateGo (mapInsert byId itemId product1)
          (mapInsert creds (credKey it) (String.intercalate "\n" delivered)) rest
      else
        match findTier product tierId with
        | none => .error { status := 404, message := "tier " ++ tierId ++ " not found for " ++ itemId }
        | some tier =>
          let inv := stripEntries (tier.inventory.getD [])
          let delivered := inv.take qty.toNat
          let remaining := inv.drop qty.toNat
          let product1 := { product with tiers := some (updateFirstTier
            (fun t => { t with inventory := some remaining,
                               stock := some (remaining.length : ℤ) })
            tierId (product.tiers.getD [])) }
          let product2 := { product1 with stock := some (computeProductStock product1) }
          allocateGo (mapInsert byId itemId product2)
            (mapInsert creds (credKey it) (String.intercalate "\n" delivered)) rest

/-- The server-side order total recomputed by `_process_purchase` over the
line items it records. -/
def orderTotalOf (items : List Item) : ℚ :=
  round2 (items.foldl
    (fun acc it =>
      let q0 := it.quantity.getD 1
      let q := max 1 (if q0 = 0 then 1 else q0)
      acc + (it.price.getD 0) * (q : ℚ))
    0)

/-- Result of `_process_purchase`: the JSON response plus the state documents
the call wrote (`none` = not written). -/
instance {ε α : Type} [DecidableEq ε] [DecidableEq α] : DecidableEq (Except ε α) := fun a b =>
  match a, b with
  | .error x, .error y =>
    if h : x = y then isTrue (by rw [h]) else isFalse (by intro hh; cases hh; exact h rfl)
  | .ok x, .ok y =>
    if h : x = y then isTrue (by rw [h]) else isFalse (by intro hh; cases hh; exact h rfl)
  | .error _, .ok _ => isFalse (by intro hh; cases hh)
  | .ok _, .error _ => isFalse (by intro hh; cases hh)

structure PurchaseOutcome where
  response : Except ErrResp (Order × List Product)
  savedProducts : Option (List Product) := none
  savedOrders : Option (List Order) := none
  deriving DecidableEq, Repr

/-- `_process_purchase`: idempotency check on the client-supplied order id,
reservation check for every line, allocation, one products write and one
orders append. -/
def processPurchase (now : ℤ) (storedProducts : List Product) (storedOrders : List Order)
    (orderData : OrderData) (userData : UserData) (paymentMethod : String) : PurchaseOutcome :=
  match orderData.items with
  | none => { response := .error { status := 400, message := "order items are required" } }
  | some [] => { response := .error { status := 400, message := "order items are required" } }
  | some (i :: rest) =>
    let items := i :: rest
    let products := loadProducts storedProducts
    let orderId := pyStrip orderData.id
    let dup := if orderId = "" then none
      else storedOrders.find? (fun o => pyStrip o.id = orderId)
    match dup with
    | some existing =>
      if sameOwner userData existing then
        { response := .ok (existing, products.map publicProduct) }
      else
        { response := .error { status := 409, message := "duplicate order id" } }
    | none =>
      let byId := buildProductsById products
      match reserveCheck byId items with
      | some e => { response := .error e }
      | none =>
        match allocateGo byId [] items with
        | .error e => { response := .error e }
        | .ok (byId1, creds) =>
          let normalizedProducts := (byId1.map Prod.snd).map normalizeProduct
          let safeUser := safeUserData userData
          let orderRecord : Order := {
            id := if orderData.id ≠ "" then orderData.id else "ord-" ++ toString now
            userId := if safeUser.id ≠ "" then safeUser.id
              else if safeUser.email ≠ "" then safeUser.email else "guest"
            createdAt := now
            paymentMethod := paymentMethod
            user := safeUser
            items := items
            total := orderTotalOf items
            status := "completed"
            credentials := creds }
          { response := .ok (orderRecord, normalizedProducts.map publicProduct)
            savedProducts := some normalizedProducts
            savedOrders := some (storedOrders ++ [orderRecord]) }

/-- The order-payload assembly shared by `shop_buy` and
`shop_create_payment`: prepared items and the server-computed total replace
whatever the client sent. -/
def prepareOrderPayload (storedProducts : List Product) (orderData : OrderData) :
    Except ErrResp OrderData :=
  match prepareOrderItems storedProducts orderData.items with
  | .error e => .error e
  | .ok (prepared, total) => .ok { orderData with items := some prepared, total := total }

/-- The `shop_buy` purchase path after authentication: prepare, gate
unverified card payments, then run the purchase pipeline. -/
def shopBuyPurchase (now : ℤ) (storedProducts : List Product) (storedOrders : List Order)
    (orderData : OrderData) (userData : UserData) (paymentMethod : String)
    (paymentVerified : Bool) : PurchaseOutcome :=
  match prepareOrderPayload storedProducts orderData with
  | .error e => { response := .error e }
  | .ok payload =>
    if paymentMethod == "card" && !paymentVerified then
      let e : ErrResp := { status := 402,
                           message := "Card payments must be completed through /shop/payments/create" }
      { response := .error e }
    else processPurchase now storedProducts storedOrders payload userData paymentMethod

/-- Result of an admin product handler: HTTP status, message, and the
products document written by the call (`none` = not written). -/
structure AdminOutcome where
  status : Nat
  message : String := ""
  savedProducts : Option (List Product) := none
  deriving DecidableEq, Repr

/-- Body of the `shop_update_stock` loop once the product is found: reject a
positive delta, trim the tail of the literal inventory for a negative delta,
or fall back to the bare stock counter. -/
def stockHandleProduct (tid : String) (d : ℤ) (p : Product) (ps : List Product) :
    Nat × String × Option (List Product) :=
  let hasTiers := (p.tiers.getD []) ≠ []
  if hasTiers ∧ tid = "" then
    (400, "This product uses tiers. Provide tierId and add real keys per tier.", none)
  else if tid ≠ "" then
    match findTier p tid with
    | none => (404, "tier not found", none)
    | some tier =>
      let inv := keepNonblank (tier.inventory.getD [])
      if 0 < d then
        (400, "Cannot increase stock numerically. Add real stock keys via /shop/inventory/add.", none)
      else
        let tier1 :=
          if d < 0 ∧ inv ≠ [] then
            let removeCount := min d.natAbs inv.length
            let inv1 := inv.take (inv.length - removeCount)
            { tier with inventory := some inv1, stock := some (inv1.length : ℤ) }
          else { tier with stock := some (max 0 (tier.stock.getD 0 + d)) }
        let p1 := { p with tiers := some (updateFirstTier (fun _ => tier1) tid (p.tiers.getD [])) }
        let p2 := { p1 with stock := some (computeProductStock p1) }
        (200, "", some (normalizeProduct p2 :: ps))
  else
    let currentStock := p.stock.getD 0
    let inv := keepNonblank (p.inventory.getD [])
    if 0 < d then
      (400, "Cannot increase stock numerically. Add real stock keys via /shop/inventory/add.", none)
    else
      let p1 :=
        if d < 0 ∧ inv ≠ [] then
          let removeCount := min d.natAbs inv.length
          let inv1 := inv.take (inv.length - removeCount)
          { p with inventory := some inv1, stock := some (inv1.length : ℤ) }
        else { p with stock := some (max 0 (currentStock + d)) }
      (200, "", some (normalizeProduct p1 :: ps))

/-- The `shop_update_stock` product scan: first matching product is handled,
the rest of the list is preserved around it. -/
def updateStockGo (pid tid : String) (d : ℤ) :
    List Product → Option (Nat × String × Option (List Product))
  | [] => none
  | p :: ps =>
    if p.id = pid then some (stockHandleProduct tid d p ps)
    else (updateStockGo pid tid d ps).map
      (fun r => (r.1, r.2.1, r.2.2.map (fun l => p :: l)))

/-- `shop_update_stock` (POST /shop/stock). -/
def shopUpdateStock (storedProducts : List Product) (productId tierId : String)
    (delta : Option ℤ) : AdminOutcome :=
  let pid := pyStrip productId
  let tid := pyStrip tierId
  if pid = "" then { status := 400, message := "productId is required" }
  else
    match delta with
    | none => { status := 400, message := "delta is required" }
    | some d =>
      match updateStockGo pid tid d (loadProducts storedProducts) with
      | none => { status := 404, message := "product not found" }
      | some r => { status := r.1, message := r.2.1, savedProducts := r.2.2 }

/-- Body of the `shop_add_inventory` loop once the product is found: append
the new credential strings to the tail of the target inventory. -/
def addInvHandle (tid : String) (items : List String) (p : Product) (ps : List Product) :
    Nat × String × Option (List Product) :=
  if tid ≠ "" then
    match findTier p tid with
    | none => (404, "tier not found", none)
    | some tier =>
      let tierInv := keepNonblank (tier.inventory.getD []) ++ items
      let tier1 := { tier with inventory := some tierInv, stock := some (tierInv.length : ℤ) }
      let p1 := { p with tiers := some (updateFirstTier (fun _ => tier1) tid (p.tiers.getD [])) }
      let p2 := { p1 with stock := some (computeProductStock p1) }
      (200, "", some (normalizeProduct p2 :: ps))
  else
    let inv := keepNonblank (p.inventory.getD []) ++ items
    let p1 := { p with inventory := some inv, stock := some (inv.length : ℤ) }
    (200, "", some (normalizeProduct p1 :: ps))

/-- The `shop_add_inventory` product scan. -/
def addInvGo (pid tid : String) (items : List String) :
    List Product → Option (Nat × String × Option (List Product))
  | [] => none
  | p :: ps =>
    if p.id = pid then some (addInvHandle tid items p ps)
    else (addInvGo pid tid items ps).map
      (fun r => (r.1, r.2.1, r.2.2.map (fun l => p :: l)))

/-- `shop_add_inventory` (POST /shop/inventory/add). -/
def shopAddInventory (storedProducts : List Product) (productId tierId : String)
    (rawItems : Option (List String)) : AdminOutcome :=
  let pid := pyStrip productId
  let tid := pyStrip tierId
  if pid = "" then { status := 400, message := "productId is required" }
  else
    match rawItems with
    | none => { status := 400, message := "items must be an array" }
    | some raw =>
      let items := stripEntries raw
      if items = [] then { status := 400, message := "at least one inventory item is required" }
      else
        match addInvGo pid tid items (loadProducts storedProducts) with
        | none => { status := 404, message := "product not found" }
        | some r => { status := r.1, message := r.2.1, savedProducts := r.2.2 }

/-- Last-entry-wins lookup of a tier payload by stripped id, modelling the
dict comprehensions of `shop_upsert_product`. -/
def lookupLastTier (ts : List Tier) (tid : String) : Option Tier :=
  ts.reverse.find? (fun t => pyStrip t.id = tid)

/-- The inventory-preservation merge of `shop_upsert_product` when the id
matches an existing product: keep the stored product/tier inventories unless
the caller's payload explicitly carries an `inventory` key, then recompute
the derived stock. -/
def mergeTierFn (pts ets : List Tier) (nt : Tier) : Option Tier :=
  if nt.id = "" then none
  else
    let pInv := match lookupLastTier pts nt.id with
      | some rt => rt.inventory
      | none => none
    let nt1 := match lookupLastTier ets nt.id with
      | some et =>
        match et.inventory with
        | some el =>
          if pInv = none then
            { nt with inventory := some (stripEntries el),
                      stock := some ((stripEntries el).length : ℤ) }
          else nt
        | none => nt
      | none => nt
    some (normalizeTier nt1)

/-- The inventory-preservation merge of `shop_upsert_product` when the id
matches an existing product: keep the stored product/tier inventories unless
the caller payload explicitly carries an `inventory` key, then recompute the
derived stock. -/
def upsertMerge (payload normalized existing : Product) : Product :=
  let n1 := match payload.inventory, existing.inventory with
    | none, some l => { normalized with inventory := some (keepNonblank l) }
    | _, _ => normalized
  let n2 := match payload.tiers, existing.tiers with
    | none, some l => { n1 with tiers := some (l.map normalizeTier) }
    | some pts, _ =>
      { n1 with tiers := some ((n1.tiers.getD []).filterMap (mergeTierFn pts (existing.tiers.getD []))) }
    | none, none => n1
  { n2 with stock := some (computeProductStock n2) }

/-- The `shop_upsert_product` replace scan: first product with the same id is
replaced by the merge result, the rest is kept. -/
def upsertGo (payload normalized : Product) : List Product → Option (List Product)
  | [] => none
  | ex :: ps =>
    if ex.id = normalized.id then some (upsertMerge payload normalized ex :: ps)
    else (upsertGo payload normalized ps).map (fun l => ex :: l)

/-- `shop_upsert_product` (POST /shop/products). -/
def shopUpsertProduct (storedProducts : List Product) (payload : Product) : AdminOutcome :=
  let normalized := normalizeProduct payload
  if normalized.id = "" then { status := 400, message := "product id is required" }
  else
    let products := loadProducts storedProducts
    match upsertGo payload normalized products with
    | some saved => { status := 200, savedProducts := some saved }
    | none => { status := 200, savedProducts := some (products ++ [normalized]) }

/-- `shop_delete_product` (DELETE /shop/products/:id). -/
def shopDeleteProduct (storedProducts : List Product) (productId : String) : AdminOutcome :=
  let pid := pyStrip productId
  if pid = "" then { status := 400, message := "product id is required" }
  else
    let products := loadProducts storedProducts
    let filtered := products.filter (fun p => p.id ≠ pid)
    if filtered.length = products.length then { status := 404, message := "product not found" }
    else { status := 200, savedProducts := some filtered }

/-- The url-safe base64 alphabet character of a 6-bit value. -/
def b64Char (v : Nat) : Char :=
  if v < 26 then Char.ofNat ('A'.toNat + v)
  else if v < 52 then Char.ofNat ('a'.toNat + (v - 26))
  else if v < 62 then Char.ofNat ('0'.toNat + (v - 52))
  else if v = 62 then '-' else '_'

/-- The 6-bit value of a url-safe base64 character, `none` outside the
alphabet. -/
def b64CharVal (c : Char) : Option Nat :=
  if 'A' ≤ c ∧ c ≤ 'Z' then some (c.toNat - 'A'.toNat)
  else if 'a' ≤ c ∧ c ≤ 'z' then some (c.toNat - 'a'.toNat + 26)
  else if '0' ≤ c ∧ c ≤ '9' then some (c.toNat - '0'.toNat + 52)
  else if c = '-' then some 62
  else if c = '_' then some 63
  else none

/-- The 6-bit groups of a byte string (final group truncated, no padding). -/
def b64Vals : List Nat → List Nat
  | b1 :: b2 :: b3 :: rest =>
    b1 / 4 :: ((b1 % 4) * 16 + b2 / 16) :: ((b2 % 16) * 4 + b3 / 64) :: (b3 % 64) :: b64Vals rest
  | [b1, b2] => [b1 / 4, (b1 % 4) * 16 + b2 / 16, (b2 % 16) * 4]
  | [b1] => [b1 / 4, (b1 % 4) * 16]
  | [] => []

/-- `_b64url_encode`: unpadded url-safe base64 of a byte string. -/
def b64UrlEncode (bs : List Nat) : String :=
  String.mk ((b64Vals bs).map b64Char)

/-- Reassembling bytes from 6-bit groups; a single trailing group is a
length error. -/
def b64DecodeVals : List Nat → Option (List Nat)
  | v1 :: v2 :: v3 :: v4 :: rest =>
    (b64DecodeVals rest).map (fun bs =>
      (v1 * 4 + v2 / 16) :: ((v2 % 16) * 16 + v3 / 4) :: ((v3 % 4) * 64 + v4) :: bs)
  | [v1, v2] => some [v1 * 4 + v2 / 16]
  | [v1, v2, v3] => some [v1 * 4 + v2 / 16, (v2 % 16) * 16 + v3 / 4]
  | [_] => none
  | [] => some []

/-- Map every character to its alphabet value, failing outside the
alphabet. -/
def b64CharVals : List Char → Option (List Nat)
  | [] => some []
  | c :: cs =>
    match b64CharVal c with
    | none => none
    | some v => (b64CharVals cs).map (fun vs => v :: vs)

/-- `_b64url_decode`: strip, reject the empty string, re-pad and decode. -/
def b64UrlDecode (s : String) : Option (List Nat) :=
  let clean := pyStrip s
  if clean = "" then none
  else
    match b64CharVals clean.data with
    | none => none
    | some vals => b64DecodeVals vals

theorem b64CharVal_b64Char : ∀ v : Fin 64, b64CharVal (b64Char v.val) = some v.val := by decide

theorem b64Char_not_space : ∀ v : Fin 64, isPySpace (b64Char v.val) = false := by decide

theorem b64Char_ne_dot : ∀ v : Fin 64, b64Char v.val ≠ '.' := by decide

theorem b64Vals_lt (bs : List Nat) (h : ∀ b ∈ bs, b < 256) : ∀ v ∈ b64Vals bs, v < 64 := by
  induction bs using b64Vals.induct with
  | _ => simp_all [b64Vals]; try omega

theorem b64DecodeVals_b64Vals (bs : List Nat) (h : ∀ b ∈ bs, b < 256) :
    b64DecodeVals (b64Vals bs) = some bs := by
  induction bs using b64Vals.induct with
  | case1 b1 b2 b3 rest ih =>
    have h1 : b1 < 256 := h _ (by simp)
    have h2 : b2 < 256 := h _ (by simp)
    have h3 : b3 < 256 := h _ (by simp)
    have ih2 := ih (fun b hb => h b (by simp [hb]))
    simp [b64Vals, b64DecodeVals, ih2]
    refine ⟨by omega, by omega, by omega⟩
  | case2 b1 b2 =>
    have h1 : b1 < 256 := h _ (by simp)
    have h2 : b2 < 256 := h _ (by simp)
    simp [b64Vals, b64DecodeVals]
    refine ⟨by omega, by omega⟩
  | case3 b1 =>
    have h1 : b1 < 256 := h _ (by simp)
    simp [b64Vals, b64DecodeVals]
    omega
  | case4 => rfl

theorem b64CharVals_map (l : List Nat) (h : ∀ v ∈ l, v < 64) :
    b64CharVals (l.map b64Char) = some l := by
  induction l with
  | nil => rfl
  | cons v t ih =>
    have hv := b64CharVal_b64Char ⟨v, h v (by simp)⟩
    simp only [List.map_cons, b64CharVals, hv]
    simp [ih (fun w hw => h w (by simp [hw]))]

theorem dropWhile_self_of_not (l : List Char) (h : ∀ c ∈ l, isPySpace c = false) :
    l.dropWhile isPySpace = l := by
  cases l with
  | nil => rfl
  | cons c t => simp [List.dropWhile, h c (by simp)]

theorem stripList_self (l : List Char) (h : ∀ c ∈ l, isPySpace c = false) :
    stripList l = l := by
  unfold stripList
  rw [dropWhile_self_of_not l h,
      dropWhile_self_of_not _ (by intro c hc; exact h c (List.mem_reverse.mp hc)),
      List.reverse_reverse]

theorem b64Vals_ne_nil (bs : List Nat) (hne : bs ≠ []) : b64Vals bs ≠ [] := by
  induction bs using b64Vals.induct <;> simp_all [b64Vals]

theorem b64UrlDecode_b64UrlEncode (bs : List Nat) (hne : bs ≠ []) (h : ∀ b ∈ bs, b < 256) :
    b64UrlDecode (b64UrlEncode bs) = some bs := by
  unfold b64UrlEncode b64UrlDecode
  have hvals := b64Vals_lt bs h
  have hchars : ∀ c ∈ (b64Vals bs).map b64Char, isPySpace c = false := by
    intro c hc
    obtain ⟨v, hv, rfl⟩ := List.mem_map.mp hc
    exact b64Char_not_space ⟨v, hvals v hv⟩
  have hstrip : pyStrip (String.mk ((b64Vals bs).map b64Char)) =
      String.mk ((b64Vals bs).map b64Char) := by
    simp [pyStrip, stripList_self _ hchars]
  simp only [hstrip]
  have hnonempty : String.mk ((b64Vals bs).map b64Char) ≠ "" := by
    intro hcontr
    have hdata : (b64Vals bs).map b64Char = [] := by
      have := congrArg String.data hcontr
      simpa using this
    exact b64Vals_ne_nil bs hne (by simpa using hdata)
  rw [if_neg hnonempty]
  rw [b64CharVals_map _ hvals]
  simp only []
  exact b64DecodeVals_b64Vals bs h

def digitChar (n : Nat) : Char := Char.ofNat ('0'.toNat + n)

def isDigitChar (c : Char) : Bool := '0' ≤ c && c ≤ '9'

def natToChars (n : Nat) : List Char :=
  if n < 10 then [digitChar n]
  else natToChars (n / 10) ++ [digitChar (n % 10)]
termination_by n
decreasing_by simp_wf; omega

def parseNatAux : List Char → Nat → Nat × List Char
  | [], acc => (acc, [])
  | c :: rest, acc =>
    if isDigitChar c then parseNatAux rest (acc * 10 + (c.toNat - '0'.toNat))
    else (acc, c :: rest)

def parseNat (l : List Char) : Option (Nat × List Char) :=
  match l with
  | c :: _ => if isDigitChar c then some (parseNatAux l 0) else none
  | [] => none

def headNotDigit (l : List Char) : Prop :=
  match l with
  | [] => True
  | c :: _ => isDigitChar c = false

theorem digitChar_facts : ∀ m : Fin 10,
    isDigitChar (digitChar m.val) = true ∧ (digitChar m.val).toNat = 48 + m.val := by decide

theorem parseNatAux_stop (l : List Char) (acc : Nat) (h : headNotDigit l) :
    parseNatAux l acc = (acc, l) := by
  cases l with
  | nil => rfl
  | cons c t => simp [parseNatAux, headNotDigit] at h ⊢; simp [h]

theorem parseNatAux_digits (n : Nat) : ∀ acc rest,
    parseNatAux (natToChars n ++ rest) acc =
      parseNatAux rest (acc * 10 ^ (natToChars n).length + n) := by
  induction n using natToChars.induct with
  | case1 n hlt =>
    intro acc rest
    rw [natToChars, if_pos hlt]
    have hd := digitChar_facts ⟨n, hlt⟩
    simp [parseNatAux, hd.1, hd.2]
  | case2 n hlt ih =>
    intro acc rest
    rw [natToChars, if_neg hlt]
    have hd := digitChar_facts ⟨n % 10, Nat.mod_lt n (by omega)⟩
    rw [List.append_assoc, List.singleton_append, ih]
    simp only [parseNatAux, hd.1, if_pos, hd.2]
    congr 1
    have h0 : '0'.toNat = 48 := rfl
    rw [h0, List.length_append, List.length_singleton, pow_succ, ← mul_assoc]
    generalize acc * 10 ^ (natToChars (n / 10)).length = m
    omega

theorem natToChars_head (n : Nat) :
    ∃ c t, natToChars n = c :: t ∧ isDigitChar c = true := by
  induction n using natToChars.induct with
  | case1 n hlt =>
    rw [natToChars, if_pos hlt]
    exact ⟨_, _, rfl, (digitChar_facts ⟨n, hlt⟩).1⟩
  | case2 n hlt ih =>
    rw [natToChars, if_neg hlt]
    obtain ⟨c, t, heq, hdig⟩ := ih
    exact ⟨c, t ++ [digitChar (n % 10)], by rw [heq]; rfl, hdig⟩

theorem parseNat_natToChars (n : Nat) (rest : List Char) (h : headNotDigit rest) :
    parseNat (natToChars n ++ rest) = some (n, rest) := by
  obtain ⟨c, t, heq, hdig⟩ := natToChars_head n
  rw [heq, List.cons_append]
  simp only [parseNat, hdig, if_pos]
  rw [← List.cons_append, ← heq, parseNatAux_digits, parseNatAux_stop _ _ h]
  simp

def intToChars (n : ℤ) : List Char :=
  if n < 0 then '-' :: natToChars n.natAbs else natToChars n.toNat

def parseInt (l : List Char) : Option (ℤ × List Char) :=
  match l with
  | [] => none
  | c :: rest =>
    if c = '-' then (parseNat rest).map (fun p => (-(p.1 : ℤ), p.2))
    else (parseNat l).map (fun p => ((p.1 : ℤ), p.2))

theorem parseInt_intToChars (n : ℤ) (rest : List Char) (h : headNotDigit rest) :
    parseInt (intToChars n ++ rest) = some (n, rest) := by
  unfold intToChars
  by_cases hn : n < 0
  · rw [if_pos hn]
    simp only [List.cons_append, parseInt, if_pos rfl]
    rw [parseNat_natToChars _ _ h]
    rw [if_pos trivial]
    have hval : -((n.natAbs : ℕ) : ℤ) = n := by omega
    simp only [Option.map_some']
    rw [hval]
  · rw [if_neg hn]
    obtain ⟨c, t, heq, hdig⟩ := natToChars_head n.toNat
    have hne : c ≠ '-' := by
      intro hc
      rw [hc] at hdig
      exact absurd hdig (by decide)
    rw [heq, List.cons_append]
    simp only [parseInt, if_neg hne]
    rw [← List.cons_append, ← heq, parseNat_natToChars _ _ h]
    have hval : ((n.toNat : ℕ) : ℤ) = n := by omega
    simp only [Option.map_some']
    rw [hval]

def hexDigit (n : Nat) : Char :=
  if n < 10 then Char.ofNat ('0'.toNat + n) else Char.ofNat ('a'.toNat + (n - 10))

def hex4 (n : Nat) : List Char :=
  [hexDigit (n / 4096 % 16), hexDigit (n / 256 % 16), hexDigit (n / 16 % 16), hexDigit (n % 16)]

def hexVal (c : Char) : Option Nat :=
  if '0' ≤ c ∧ c ≤ '9' then some (c.toNat - '0'.toNat)
  else if 'a' ≤ c ∧ c ≤ 'f' then some (c.toNat - 'a'.toNat + 10)
  else if 'A' ≤ c ∧ c ≤ 'F' then some (c.toNat - 'A'.toNat + 10)
  else none

theorem hexVal_hexDigit : ∀ m : Fin 16, hexVal (hexDigit m.val) = some m.val := by decide

def escapeChar (c : Char) : List Char :=
  if c = '"' then ['\\', '"']
  else if c = '\\' then ['\\', '\\']
  else if c.toNat = 8 then ['\\', 'b']
  else if c.toNat = 9 then ['\\', 't']
  else if c.toNat = 10 then ['\\', 'n']
  else if c.toNat = 12 then ['\\', 'f']
  else if c.toNat = 13 then ['\\', 'r']
  else if c.toNat < 32 then '\\' :: 'u' :: hex4 c.toNat
  else if c.toNat < 127 then [c]
  else if c.toNat < 65536 then '\\' :: 'u' :: hex4 c.toNat
  else
    ('\\' :: 'u' :: hex4 (55296 + (c.toNat - 65536) / 1024)) ++
    ('\\' :: 'u' :: hex4 (56320 + (c.toNat - 65536) % 1024))

def parseHex4 : List Char → Option (Nat × List Char)
  | h1 :: h2 :: h3 :: h4 :: rest =>
    match hexVal h1, hexVal h2, hexVal h3, hexVal h4 with
    | some a, some b, some c, some d => some (a * 4096 + b * 256 + c * 16 + d, rest)
    | _, _, _, _ => none
  | _ => none

def parseUEscape (l : List Char) : Option (Char × List Char) :=
  (parseHex4 l).bind (fun vr =>
    if 55296 ≤ vr.1 ∧ vr.1 < 56320 then
      match vr.2 with
      | c1 :: c2 :: rest2 =>
        if c1 = '\\' ∧ c2 = 'u' then
          (parseHex4 rest2).bind (fun wr =>
            if 56320 ≤ wr.1 ∧ wr.1 < 57344 then
              some (Char.ofNat (65536 + (vr.1 - 55296) * 1024 + (wr.1 - 56320)), wr.2)
            else none)
        else none
      | _ => none
    else if 56320 ≤ vr.1 ∧ vr.1 < 57344 then none
    else some (Char.ofNat vr.1, vr.2))

def parseEscape : List Char → Option (Char × List Char)
  | [] => none
  | e :: rest =>
    if e = '"' then some ('"', rest)
    else if e = '\\' then some ('\\', rest)
    else if e = '/' then some ('/', rest)
    else if e = 'b' then some (Char.ofNat 8, rest)
    else if e = 'f' then some (Char.ofNat 12, rest)
    else if e = 'n' then some (Char.ofNat 10, rest)
    else if e = 'r' then some (Char.ofNat 13, rest)
    else if e = 't' then some (Char.ofNat 9, rest)
    else if e = 'u' then parseUEscape rest
    else none

theorem parseHex4_length {l r : List Char} {v : Nat} (h : parseHex4 l = some (v, r)) :
    l.length = r.length + 4 := by
  match l with
  | h1 :: h2 :: h3 :: h4 :: rest =>
    simp only [parseHex4] at h
    rcases hv1 : hexVal h1 with _ | a <;> rw [hv1] at h <;>
      rcases hv2 : hexVal h2 with _ | b <;> rw [hv2] at h <;>
        rcases hv3 : hexVal h3 with _ | c <;> rw [hv3] at h <;>
          rcases hv4 : hexVal h4 with _ | d <;> rw [hv4] at h <;> simp_all
  | [] => simp [parseHex4] at h
  | [_] => simp [parseHex4] at h
  | [_, _] => simp [parseHex4] at h
  | [_, _, _] => simp [parseHex4] at h

theorem parseUEscape_length {l r : List Char} {c : Char} (h : parseUEscape l = some (c, r)) :
    r.length < l.length := by
  unfold parseUEscape at h
  rcases hp : parseHex4 l with _ | ⟨v, rest⟩ <;> rw [hp] at h
  · simp at h
  · have hl := parseHex4_length hp
    simp only [Option.some_bind] at h
    split at h
    · split at h
      · rename_i c1 c2 rest2
        split at h
        · rcases hp2 : parseHex4 rest2 with _ | ⟨w, rest3⟩ <;> rw [hp2] at h
          · simp at h
          · have hl2 := parseHex4_length hp2
            simp only [Option.some_bind] at h
            split at h
            · simp only [Option.some.injEq, Prod.mk.injEq] at h
              obtain ⟨-, hr⟩ := h
              subst hr
              simp_all
              omega
            · exact absurd h (by simp)
        · exact absurd h (by simp)
      · exact absurd h (by simp)
    · split at h
      · exact absurd h (by simp)
      · simp only [Option.some.injEq, Prod.mk.injEq] at h
        obtain ⟨-, hr⟩ := h
        subst hr
        omega

theorem parseEscape_length {l r : List Char} {c : Char} (h : parseEscape l = some (c, r)) :
    r.length < l.length := by
  match l with
  | [] => simp [parseEscape] at h
  | e :: rest =>
    simp only [parseEscape] at h
    split_ifs at h with h1 h2 h3 h4 h5 h6 h7 h8 h9
    all_goals first
      | (simp only [Option.some.injEq, Prod.mk.injEq] at h
         obtain ⟨-, hr⟩ := h
         subst hr
         simp)
      | (have hu := parseUEscape_length h
         simp only [List.length_cons]
         omega)
      | simp at h

def parseStrChars : List Char → Option (List Char × List Char)
  | [] => none
  | c :: rest =>
    if c = '"' then some ([], rest)
    else if c = '\\' then
      match hpe : parseEscape rest with
      | none => none
      | some (ch, rest2) => (parseStrChars rest2).map (fun p => (ch :: p.1, p.2))
    else (parseStrChars rest).map (fun p => (c :: p.1, p.2))
termination_by l => l.length
decreasing_by
  · have := parseEscape_length hpe
    simp only [List.length_cons]
    omega
  · simp only [List.length_cons]
    omega

theorem charOfNat_toNat {c : Char} {n : Nat} (h : c.toNat = n) : Char.ofNat n = c := by
  rw [← h, Char.ofNat_toNat]

theorem char_range (c : Char) : c.toNat < 55296 ∨ (57344 ≤ c.toNat ∧ c.toNat < 1114112) := by
  have hv := c.valid
  rcases hv with h | h
  · exact Or.inl h
  · exact Or.inr ⟨h.1, h.2⟩

theorem parseHex4_hex4 (v : Nat) (hv : v < 65536) (s : List Char) :
    parseHex4 (hex4 v ++ s) = some (v, s) := by
  have h1 := hexVal_hexDigit ⟨v / 4096 % 16, by omega⟩
  have h2 := hexVal_hexDigit ⟨v / 256 % 16, by omega⟩
  have h3 := hexVal_hexDigit ⟨v / 16 % 16, by omega⟩
  have h4 := hexVal_hexDigit ⟨v % 16, by omega⟩
  simp only [Fin.val] at h1 h2 h3 h4
  simp only [hex4, List.cons_append, List.nil_append, parseHex4, h1, h2, h3, h4,
    Option.some.injEq, Prod.mk.injEq]
  exact ⟨by omega, trivial⟩

theorem parseUEscape_hex4 (v : Nat) (hv : v < 65536) (hs1 : ¬(55296 ≤ v ∧ v < 56320))
    (hs2 : ¬(56320 ≤ v ∧ v < 57344)) (s : List Char) :
    parseUEscape (hex4 v ++ s) = some (Char.ofNat v, s) := by
  unfold parseUEscape
  rw [parseHex4_hex4 v hv s, Option.some_bind]
  dsimp only
  rw [if_neg hs1, if_neg hs2]

theorem parseUEscape_pair (n : Nat) (hlo : 65536 ≤ n) (hhi : n < 1114112) (s : List Char) :
    parseUEscape (hex4 (55296 + (n - 65536) / 1024) ++
      ('\\' :: 'u' :: (hex4 (56320 + (n - 65536) % 1024) ++ s))) = some (Char.ofNat n, s) := by
  unfold parseUEscape
  rw [parseHex4_hex4 _ (by omega) _, Option.some_bind]
  dsimp only
  rw [if_pos (by omega : 55296 ≤ 55296 + (n - 65536) / 1024 ∧ 55296 + (n - 65536) / 1024 < 56320)]
  rw [if_pos (by exact ⟨rfl, rfl⟩ : ('\\' : Char) = '\\' ∧ ('u' : Char) = 'u')]
  rw [parseHex4_hex4 _ (by omega) _, Option.some_bind]
  dsimp only
  rw [if_pos (by omega : 56320 ≤ 56320 + (n - 65536) % 1024 ∧ 56320 + (n - 65536) % 1024 < 57344)]
  have harg : 65536 + (55296 + (n - 65536) / 1024 - 55296) * 1024 +
      (56320 + (n - 65536) % 1024 - 56320) = n := by omega
  rw [harg]

theorem parseStrChars_cons (c : Char) (rest : List Char) :
    parseStrChars (c :: rest) =
      if c = '"' then some ([], rest)
      else if c = '\\' then
        match parseEscape rest with
        | none => none
        | some (ch, rest2) => (parseStrChars rest2).map (fun p => (ch :: p.1, p.2))
      else (parseStrChars rest).map (fun p => (c :: p.1, p.2)) := by
  conv_lhs => rw [parseStrChars]
  split_ifs with h1 h2
  · rfl
  · rcases hp : parseEscape rest with _ | ⟨ch, rest2⟩ <;> rfl
  · rfl

theorem parseStr_backslash_some {rest rest2 : List Char} {ch : Char}
    (hp : parseEscape rest = some (ch, rest2)) :
    parseStrChars ('\\' :: rest) = (parseStrChars rest2).map (fun p => (ch :: p.1, p.2)) := by
  rw [parseStrChars_cons, if_neg (by decide), if_pos rfl, hp]

theorem parseEscape_quote (s : List Char) : parseEscape ('"' :: s) = some ('"', s) := by
  simp [parseEscape]

theorem parseEscape_bs (s : List Char) : parseEscape ('\\' :: s) = some ('\\', s) := by
  simp [parseEscape]

theorem parseEscape_b (s : List Char) : parseEscape ('b' :: s) = some (Char.ofNat 8, s) := by
  simp [parseEscape]

theorem parseEscape_t (s : List Char) : parseEscape ('t' :: s) = some (Char.ofNat 9, s) := by
  simp [parseEscape]

theorem parseEscape_n (s : List Char) : parseEscape ('n' :: s) = some (Char.ofNat 10, s) := by
  simp [parseEscape]

theorem parseEscape_f (s : List Char) : parseEscape ('f' :: s) = some (Char.ofNat 12, s) := by
  simp [parseEscape]

theorem parseEscape_r (s : List Char) : parseEscape ('r' :: s) = some (Char.ofNat 13, s) := by
  simp [parseEscape]

theorem parseEscape_u (rest : List Char) : parseEscape ('u' :: rest) = parseUEscape rest := by
  simp [parseEscape]

theorem escapeChar_ctrl (c : Char) (h32 : c.toNat < 32) (h8 : c.toNat ≠ 8) (h9 : c.toNat ≠ 9)
    (h10 : c.toNat ≠ 10) (h12 : c.toNat ≠ 12) (h13 : c.toNat ≠ 13) :
    escapeChar c = '\\' :: 'u' :: hex4 c.toNat := by
  have hq : c ≠ '"' := by
    intro h
    rw [h] at h32
    exact absurd h32 (by decide)
  have hb : c ≠ '\\' := by
    intro h
    rw [h] at h32
    exact absurd h32 (by decide)
  unfold escapeChar
  rw [if_neg hq, if_neg hb, if_neg h8, if_neg h9, if_neg h10, if_neg h12, if_neg h13, if_pos h32]

theorem escapeChar_lit (c : Char) (h1 : 32 ≤ c.toNat) (h2 : c.toNat < 127)
    (hq : c ≠ '"') (hb : c ≠ '\\') : escapeChar c = [c] := by
  unfold escapeChar
  rw [if_neg hq, if_neg hb, if_neg (by omega : ¬ c.toNat = 8), if_neg (by omega : ¬ c.toNat = 9),
      if_neg (by omega : ¬ c.toNat = 10), if_neg (by omega : ¬ c.toNat = 12),
      if_neg (by omega : ¬ c.toNat = 13), if_neg (by omega : ¬ c.toNat < 32), if_pos h2]

theorem escapeChar_bmp (c : Char) (h1 : 127 ≤ c.toNat) (h2 : c.toNat < 65536) :
    escapeChar c = '\\' :: 'u' :: hex4 c.toNat := by
  have hq : c ≠ '"' := by
    intro h
    rw [h] at h1
    exact absurd h1 (by decide)
  have hb : c ≠ '\\' := by
    intro h
    rw [h] at h1
    exact absurd h1 (by decide)
  unfold escapeChar
  rw [if_neg hq, if_neg hb, if_neg (by omega : ¬ c.toNat = 8), if_neg (by omega : ¬ c.toNat = 9),
      if_neg (by omega : ¬ c.toNat = 10), if_neg (by omega : ¬ c.toNat = 12),
      if_neg (by omega : ¬ c.toNat = 13), if_neg (by omega : ¬ c.toNat < 32),
      if_neg (by omega : ¬ c.toNat < 127), if_pos h2]

theorem escapeChar_astral (c : Char) (h1 : 65536 ≤ c.toNat) :
    escapeChar c =
      ('\\' :: 'u' :: hex4 (55296 + (c.toNat - 65536) / 1024)) ++
      ('\\' :: 'u' :: hex4 (56320 + (c.toNat - 65536) % 1024)) := by
  have hq : c ≠ '"' := by
    intro h
    rw [h] at h1
    exact absurd h1 (by decide)
  have hb : c ≠ '\\' := by
    intro h
    rw [h] at h1
    exact absurd h1 (by decide)
  unfold escapeChar
  rw [if_neg hq, if_neg hb, if_neg (by omega : ¬ c.toNat = 8), if_neg (by omega : ¬ c.toNat = 9),
      if_neg (by omega : ¬ c.toNat = 10), if_neg (by omega : ¬ c.toNat = 12),
      if_neg (by omega : ¬ c.toNat = 13), if_neg (by omega : ¬ c.toNat < 32),
      if_neg (by omega : ¬ c.toNat < 127), if_neg (by omega : ¬ c.toNat < 65536)]

theorem parseStr_escapeChar (c : Char) (s : List Char) :
    parseStrChars (escapeChar c ++ s) =
      (parseStrChars s).map (fun p => (c :: p.1, p.2)) := by
  by_cases hq : c = '"'
  · subst hq
    rw [show escapeChar '"' = ['\\', '"'] from by decide]
    simp only [List.cons_append, List.nil_append]
    rw [parseStr_backslash_some (parseEscape_quote s)]
  by_cases hb : c = '\\'
  · subst hb
    rw [show escapeChar '\\' = ['\\', '\\'] from by decide]
    simp only [List.cons_append, List.nil_append]
    rw [parseStr_backslash_some (parseEscape_bs s)]
  by_cases h8 : c.toNat = 8
  · obtain rfl := (charOfNat_toNat h8).symm
    rw [show escapeChar (Char.ofNat 8) = ['\\', 'b'] from by decide]
    simp only [List.cons_append, List.nil_append]
    rw [parseStr_backslash_some (parseEscape_b s)]
  by_cases h9 : c.toNat = 9
  · obtain rfl := (charOfNat_toNat h9).symm
    rw [show escapeChar (Char.ofNat 9) = ['\\', 't'] from by decide]
    simp only [List.cons_append, List.nil_append]
    rw [parseStr_backslash_some (parseEscape_t s)]
  by_cases h10 : c.toNat = 10
  · obtain rfl := (charOfNat_toNat h10).symm
    rw [show escapeChar (Char.ofNat 10) = ['\\', 'n'] from by decide]
    simp only [List.cons_append, List.nil_append]
    rw [parseStr_backslash_some (parseEscape_n s)]
  by_cases h12 : c.toNat = 12
  · obtain rfl := (charOfNat_toNat h12).symm
    rw [show escapeChar (Char.ofNat 12) = ['\\', 'f'] from by decide]
    simp only [List.cons_append, List.nil_append]
    rw [parseStr_backslash_some (parseEscape_f s)]
  by_cases h13 : c.toNat = 13
  · obtain rfl := (charOfNat_toNat h13).symm
    rw [show escapeChar (Char.ofNat 13) = ['\\', 'r'] from by decide]
    simp only [List.cons_append, List.nil_append]
    rw [parseStr_backslash_some (parseEscape_r s)]
  by_cases h32 : c.toNat < 32
  · rw [escapeChar_ctrl c h32 h8 h9 h10 h12 h13]
    simp only [List.cons_append]
    have hu : parseEscape ('u' :: (hex4 c.toNat ++ s)) = some (Char.ofNat c.toNat, s) := by
      rw [parseEscape_u, parseUEscape_hex4 c.toNat (by omega) (by omega) (by omega) s]
    rw [parseStr_backslash_some hu, charOfNat_toNat rfl]
  by_cases h127 : c.toNat < 127
  · rw [escapeChar_lit c (by omega) h127 hq hb, List.singleton_append, parseStrChars_cons,
        if_neg hq, if_neg hb]
  by_cases h65536 : c.toNat < 65536
  · have hrange := char_range c
    rw [escapeChar_bmp c (by omega) h65536]
    simp only [List.cons_append]
    have hu : parseEscape ('u' :: (hex4 c.toNat ++ s)) = some (Char.ofNat c.toNat, s) := by
      rw [parseEscape_u, parseUEscape_hex4 c.toNat (by omega) (by omega) (by omega) s]
    rw [parseStr_backslash_some hu, charOfNat_toNat rfl]
  · have hrange := char_range c
    rw [escapeChar_astral c (by omega)]
    simp only [List.cons_append, List.append_assoc, List.nil_append]
    have hu : parseEscape ('u' :: (hex4 (55296 + (c.toNat - 65536) / 1024) ++
        ('\\' :: 'u' :: (hex4 (56320 + (c.toNat - 65536) % 1024) ++ s)))) =
        some (Char.ofNat c.toNat, s) := by
      rw [parseEscape_u, parseUEscape_pair c.toNat (by omega) (by omega) s]
    rw [parseStr_backslash_some hu, charOfNat_toNat rfl]

def jsonStrLit (s : String) : List Char :=
  '"' :: ((s.data.map escapeChar).join ++ ['"'])

def parseJsonStr (l : List Char) : Option (String × List Char) :=
  match l with
  | c :: rest =>
    if c = '"' then (parseStrChars rest).map (fun p => (String.mk p.1, p.2)) else none
  | [] => none

theorem parseStrChars_escaped (l : List Char) (rest : List Char) :
    parseStrChars ((l.map escapeChar).join ++ ('"' :: rest)) = some (l, rest) := by
  induction l with
  | nil =>
    simp only [List.map_nil, List.flatten_nil, List.nil_append]
    rw [parseStrChars_cons, if_pos rfl]
  | cons c t ih =>
    simp only [List.map_cons, List.flatten_cons, List.append_assoc]
    rw [parseStr_escapeChar, ih]
    rfl

theorem parseJsonStr_lit (s : String) (rest : List Char) :
    parseJsonStr (jsonStrLit s ++ rest) = some (s, rest) := by
  have hmk : String.mk s.data = s := by
    cases s
    rfl
  simp only [jsonStrLit, List.cons_append, List.append_assoc, List.singleton_append,
    List.nil_append]
  simp only [parseJsonStr, if_pos rfl]
  rw [if_pos trivial, parseStrChars_escaped s.data rest]
  simp [hmk]

structure SessionPayload where
  uid : String
  email : String
  role : String
  iat : ℤ
  exp : ℤ
  deriving DecidableEq, Repr

def payloadChars (p : SessionPayload) : List Char :=
  Char.ofNat 123 ::
    ("\"email\":".data ++ (jsonStrLit p.email ++
      (",\"exp\":".data ++ (intToChars p.exp ++
        (",\"iat\":".data ++ (intToChars p.iat ++
          (",\"role\":".data ++ (jsonStrLit p.role ++
            (",\"uid\":".data ++ (jsonStrLit p.uid ++ [Char.ofNat 125]))))))))))

def dropLit : List Char → List Char → Option (List Char)
  | [], l => some l
  | p :: ps, c :: cs => if c = p then dropLit ps cs else none
  | _ :: _, [] => none

theorem dropLit_append (pat rest : List Char) : dropLit pat (pat ++ rest) = some rest := by
  induction pat with
  | nil => rfl
  | cons p ps ih =>
    simp only [List.cons_append, dropLit, if_pos rfl]
    exact ih

def parsePayloadChars : List Char → Option SessionPayload
  | [] => none
  | c :: rest =>
    if c = Char.ofNat 123 then
      (dropLit "\"email\":".data rest).bind fun r1 =>
      (parseJsonStr r1).bind fun er =>
      (dropLit ",\"exp\":".data er.2).bind fun r3 =>
      (parseInt r3).bind fun xr =>
      (dropLit ",\"iat\":".data xr.2).bind fun r5 =>
      (parseInt r5).bind fun ir =>
      (dropLit ",\"role\":".data ir.2).bind fun r7 =>
      (parseJsonStr r7).bind fun rr =>
      (dropLit ",\"uid\":".data rr.2).bind fun r9 =>
      (parseJsonStr r9).bind fun ur =>
      (match ur.2 with
       | [cb] => if cb = Char.ofNat 125 then some ⟨ur.1, er.1, rr.1, ir.1, xr.1⟩ else none
       | _ => none)
    else none

theorem headNotDigit_comma (t X : List Char) : headNotDigit ((',' :: t) ++ X) := by
  simp only [List.cons_append]
  show isDigitChar ',' = false
  decide

theorem parsePayload_payloadChars (p : SessionPayload) :
    parsePayloadChars (payloadChars p) = some p := by
  unfold payloadChars
  simp only [parsePayloadChars]
  rw [if_pos trivial]
  rw [dropLit_append]
  simp only [Option.some_bind]
  rw [parseJsonStr_lit]
  simp only [Option.some_bind]
  rw [dropLit_append]
  simp only [Option.some_bind]
  rw [parseInt_intToChars p.exp _ (headNotDigit_comma _ _)]
  simp only [Option.some_bind]
  rw [dropLit_append]
  simp only [Option.some_bind]
  rw [parseInt_intToChars p.iat _ (headNotDigit_comma _ _)]
  simp only [Option.some_bind]
  rw [dropLit_append]
  simp only [Option.some_bind]
  rw [parseJsonStr_lit]
  simp only [Option.some_bind]
  rw [dropLit_append]
  simp only [Option.some_bind]
  rw [parseJsonStr_lit]
  simp only [Option.some_bind]
  rw [if_pos trivial]

theorem char_eq_iff_toNat {a b : Char} : a = b ↔ a.toNat = b.toNat := by
  constructor
  · intro h
    rw [h]
  · intro h
    rw [← Char.ofNat_toNat a, h, Char.ofNat_toNat]

theorem toNat_ofNat_valid {n : Nat} (h : n.isValidChar) : (Char.ofNat n).toNat = n := by
  simp [Char.ofNat, h]
  rfl

theorem isPySpace_iff (c : Char) : isPySpace c = true ↔
    (c.toNat = 32 ∨ c.toNat = 9 ∨ c.toNat = 10 ∨ c.toNat = 13 ∨ c.toNat = 11 ∨ c.toNat = 12) := by
  unfold isPySpace
  simp only [Bool.or_eq_true, beq_iff_eq]
  rw [char_eq_iff_toNat, char_eq_iff_toNat, char_eq_iff_toNat, char_eq_iff_toNat,
      char_eq_iff_toNat, char_eq_iff_toNat]
  rw [show (' ').toNat = 32 from rfl, show ('\t').toNat = 9 from rfl,
      show ('\n').toNat = 10 from rfl, show ('\x0d').toNat = 13 from rfl,
      show (Char.ofNat 11).toNat = 11 from rfl, show (Char.ofNat 12).toNat = 12 from rfl]
  tauto

theorem isPySpace_toLower (c : Char) : isPySpace c.toLower = isPySpace c := by
  simp only [Char.toLower]
  split_ifs with h
  · have hval : (Char.ofNat (c.toNat + 32)).toNat = c.toNat + 32 :=
      toNat_ofNat_valid (Or.inl (by omega))
    rcases hsp : isPySpace c with _ | _
    · rcases hsp2 : isPySpace (Char.ofNat (c.toNat + 32)) with _ | _
      · rfl
      · have := (isPySpace_iff _).mp hsp2
        rw [hval] at this
        omega
    · have := (isPySpace_iff c).mp hsp
      omega
  · rfl

theorem toLower_toLower (c : Char) : c.toLower.toLower = c.toLower := by
  simp only [Char.toLower]
  by_cases h : c.toNat ≥ 65 ∧ c.toNat ≤ 90
  · simp only [if_pos h]
    have hval : (Char.ofNat (c.toNat + 32)).toNat = c.toNat + 32 :=
      toNat_ofNat_valid (Or.inl (by omega))
    rw [if_neg (by rw [hval]; omega)]
  · simp only [if_neg h]

theorem dropWhile_space_map_toLower (l : List Char) :
    List.dropWhile isPySpace (l.map Char.toLower) =
      (List.dropWhile isPySpace l).map Char.toLower := by
  rw [List.dropWhile_map]
  have hfun : (isPySpace ∘ Char.toLower) = isPySpace := funext isPySpace_toLower
  rw [hfun]

theorem stripList_map_toLower (l : List Char) :
    stripList (l.map Char.toLower) = (stripList l).map Char.toLower := by
  unfold stripList
  rw [dropWhile_space_map_toLower, ← List.map_reverse, dropWhile_space_map_toLower,
      ← List.map_reverse]

theorem stripList_idem (l : List Char) : stripList (stripList l) = stripList l := by
  have he : ∀ x : List Char,
      stripList x = List.rdropWhile isPySpace (List.dropWhile isPySpace x) := by
    intro x
    simp [stripList, List.rdropWhile]
  rw [he, he]
  have h1 : List.dropWhile isPySpace
      (List.rdropWhile isPySpace (List.dropWhile isPySpace l)) =
      List.rdropWhile isPySpace (List.dropWhile isPySpace l) := by
    rw [List.dropWhile_eq_self_iff]
    intro hl
    have hpre := List.rdropWhile_prefix isPySpace (List.dropWhile isPySpace l)
    have hlen : 0 < (List.dropWhile isPySpace l).length :=
      lt_of_lt_of_le hl hpre.length_le
    rw [List.get_eq_getElem, List.IsPrefix.getElem hpre hl]
    have hz := List.dropWhile_get_zero_not isPySpace l hlen
    rw [List.get_eq_getElem] at hz
    exact hz
  rw [h1, List.rdropWhile_idempotent]

theorem pyStrip_idem (s : String) : pyStrip (pyStrip s) = pyStrip s := by
  simp [pyStrip, stripList_idem]

theorem pyStrip_pyLower (s : String) : pyStrip (pyLower s) = pyLower (pyStrip s) := by
  simp [pyStrip, pyLower, stripList_map_toLower]

theorem pyLower_idem (s : String) : pyLower (pyLower s) = pyLower s := by
  simp only [pyLower, List.map_map]
  congr 1
  apply List.map_congr_left
  intro c _
  exact toLower_toLower c

/-- UTF-8 encoding of the (ASCII) payload text the signer produces. -/
def strToBytes (s : String) : List Nat :=
  s.data.map Char.toNat

/-- UTF-8 decoding, modelled on the ASCII subset the signer emits. -/
def bytesToStr (bs : List Nat) : Option String :=
  if bs.all (fun b => b < 128) then some (String.mk (bs.map Char.ofNat)) else none

/-- The canonical `json.dumps(payload, separators=(",", ":"), sort_keys=True)`
text of a session payload. -/
def payloadString (p : SessionPayload) : String :=
  String.mk (payloadChars p)

/-- The role normalization applied both when minting and when parsing. -/
def roleNorm (role : String) : String :=
  if pyLower (pyStrip role) = "admin" then "admin" else "user"

/-- `_sign_session_payload`: base64url of the MAC over the encoded payload.
The HMAC-SHA256 primitive itself is an opaque parameter `mac`. -/
def signSessionPayload (mac : String → String → List Nat) (secret payloadB64 : String) : String :=
  b64UrlEncode (mac secret payloadB64)

/-- `_issue_shop_session_token`. -/
def issueShopSessionToken (mac : String → String → List Nat) (secret : String) (ttl : ℤ)
    (user : UserData) (now : ℤ) : String :=
  let payload : SessionPayload := {
    uid := pyStrip user.id
    email := pyLower (pyStrip user.email)
    role := roleNorm user.role
    iat := now
    exp := now + ttl }
  let payloadB64 := b64UrlEncode (strToBytes (payloadString payload))
  payloadB64 ++ "." ++ signSessionPayload mac secret payloadB64

/-- The verified identity a session token parses to. -/
structure SessionUser where
  id : String
  email : String
  role : String
  deriving DecidableEq, Repr

/-- Python `token.split(".", 1)`, `none` when the token has no dot. -/
def splitFirstDot : List Char → Option (List Char × List Char)
  | [] => none
  | c :: rest =>
    if c = '.' then some ([], rest)
    else (splitFirstDot rest).map (fun pr => (c :: pr.1, pr.2))

/-- `_parse_shop_session_token`: recompute the signature, compare, decode and
validate the payload, reject expired or incomplete claims. -/
def parseShopSessionToken (mac : String → String → List Nat) (secret : String) (now : ℤ)
    (token : String) : Option SessionUser :=
  let rawToken := pyStrip token
  match splitFirstDot rawToken.data with
  | none => none
  | some (pb, sb) =>
    let payloadB64 := String.mk pb
    let signature := String.mk sb
    let expected := signSessionPayload mac secret payloadB64
    if signature = "" ∨ signature ≠ expected then none
    else
      match b64UrlDecode payloadB64 with
      | none => none
      | some bytes =>
        match bytesToStr bytes with
        | none => none
        | some payloadRaw =>
          match parsePayloadChars payloadRaw.data with
          | none => none
          | some payload =>
            let uid := pyStrip payload.uid
            let email := pyLower (pyStrip payload.email)
            let role := roleNorm payload.role
            if uid = "" ∨ email = "" ∨ payload.exp ≤ now then none
            else some { id := uid, email := email, role := role }

/-- One login OTP session row: the account, the expected code, its expiry
timestamp and the number of failed attempts so far. -/
structure OtpEntry where
  email : String := ""
  code : String := ""
  expiresAt : ℤ := 0
  attempts : ℤ := 0
  deriving DecidableEq, Repr

/-- `_purge_expired_login_otps`: drop every session whose expiry is not in
the future. -/
def purgeExpiredOtps (now : ℤ) (sessions : List (String × OtpEntry)) :
    List (String × OtpEntry) :=
  sessions.filter (fun kv => now < kv.2.expiresAt)

/-- Remove a key from an association list (Python `dict.pop`). -/
def mapRemove {α : Type} (m : List (String × α)) (k : String) : List (String × α) :=
  m.filter (fun kv => kv.1 ≠ k)

/-- Outcome of `shop_auth_verify_otp`: an error status or the verified user
record (the handler then issues a session token for it). -/
structure OtpOutcome where
  status : Nat
  message : String := ""
  user : Option UserData := none
  sessions : List (String × OtpEntry)
  deriving DecidableEq, Repr

/-- `shop_auth_verify_otp`: purge expired sessions, look up the token,
count a wrong code against the attempt cap (invalidating the token at the
cap), and resolve the user on success. The default-admin bootstrap of the
user list is kept outside this model; `users` is the stored list. -/
def shopAuthVerifyOtp (now : ℤ) (maxAttempts : ℤ) (sessions : List (String × OtpEntry))
    (users : List UserData) (otpTokenRaw codeRaw : String) : OtpOutcome :=
  let otpToken := pyStrip otpTokenRaw
  let otpCode := pyStrip codeRaw
  if otpToken = "" ∨ otpCode = "" then
    { status := 400, message := "otp token and code are required", sessions := sessions }
  else
    let s1 := purgeExpiredOtps now sessions
    match mapLookup s1 otpToken with
    | none => { status := 401, message := "otp expired or invalid", sessions := s1 }
    | some entry =>
      let email := pyLower (pyStrip entry.email)
      let expectedCode := pyStrip entry.code
      let attempts := entry.attempts
      if otpCode ≠ expectedCode then
        let a1 := attempts + 1
        let s2 := mapInsert s1 otpToken { entry with attempts := a1 }
        let s3 := if a1 ≥ maxAttempts then mapRemove s2 otpToken else s2
        { status := 401, message := "invalid verification code", sessions := s3 }
      else
        let s2 := mapRemove s1 otpToken
        match users.find? (fun u => pyLower (pyStrip u.email) = email) with
        | some u => { status := 200, user := some u, sessions := s2 }
        | none => { status := 404, message := "user not found", sessions := s2 }

/-- A pending-payment record as stored under its opaque token. -/
structure PendingPayment where
  order : OrderData := {}
  user : UserData := {}
  paymentMethod : String := ""
  completed : Bool := false
  createdAt : ℤ := 0
  deriving DecidableEq, Repr

/-- Result of the deterministic entry checks of `shop_confirm_payment`
(everything before the first gateway call): a rejection response, or
permission to proceed to gateway verification with the stored method. -/
inductive ConfirmCheck where
  | reject (e : ErrResp)
  | proceed (method : String) (entry : PendingPayment)
  deriving DecidableEq, Repr

/-- The prefix of `shop_confirm_payment` up to the first gateway
interaction: token lookup, the completed-replay guard, the ownership check
against the authenticated session user, and the method-mismatch guard. No
store write happens before a `proceed`. -/
def shopConfirmPaymentCheck (pending : List (String × PendingPayment)) (authUser : UserData)
    (token requestedMethodRaw : String) : ConfirmCheck :=
  let tok := pyStrip token
  let requestedMethod := pyLower (pyStrip requestedMethodRaw)
  if tok = "" then .reject { status := 400, message := "token is required" }
  else
    match mapLookup pending tok with
    | none => .reject { status := 404, message := "payment token not found" }
    | some entry =>
      if entry.completed then
        .reject { status := 409, message := "payment already processed" }
      else
        let pendingUserId := pyStrip entry.user.id
        let pendingUserEmail := pyLower (pyStrip entry.user.email)
        let requestUserId := pyStrip authUser.id
        let requestUserEmail := pyLower (pyStrip authUser.email)
        if pendingUserId ≠ requestUserId ∨ pendingUserEmail ≠ requestUserEmail then
          .reject { status := 403, message := "payment token does not belong to this user" }
        else
          let storedMethod := pyLower (pyStrip entry.paymentMethod)
          let method := if storedMethod = "" then "card" else storedMethod
          if requestedMethod ≠ "" ∧ requestedMethod ≠ method then
            .reject { status := 409, message := "payment method mismatch" }
          else
            .proceed method entry

/-- C4 counterexample: a `/shop/payments/confirm` call whose token refers to
a PendingPayment with `completed = true` does not return the already
completed order; the handler rejects it with a 409 "payment already
processed" error before reaching any gateway or store write. -/
theorem confirm_completed_is_409_not_order :
    shopConfirmPaymentCheck
      [("tok1", { order := {}, user := { id := "u1", email := "a@b.c" },
                  paymentMethod := "card", completed := true, createdAt := 0 })]
      { id := "u1", email := "a@b.c" } "tok1" "" =
      .reject { status := 409, message := "payment already processed" } := by
  rfl

/-- C4 (amended): for every `/shop/payments/confirm` call whose (non-blank)
token refers to a PendingPayment record with `completed` already true, the
handler rejects with 409 "payment already processed" instead of re-running
the purchase pipeline, and since this check precedes every gateway call and
store write, products, orders and pending payments are left unchanged. -/
theorem confirm_replay_rejected_409 (pending : List (String × PendingPayment))
    (authUser : UserData) (token reqMethod : String) (entry : PendingPayment)
    (htok : pyStrip token ≠ "")
    (hlook : mapLookup pending (pyStrip token) = some entry)
    (hdone : entry.completed = true) :
    shopConfirmPaymentCheck pending authUser token reqMethod =
      .reject { status := 409, message := "payment already processed" } := by
  unfold shopConfirmPaymentCheck
  rw [if_neg htok, hlook]
  simp only [hdone, if_true]

/-- Closed witness for the amended C4 theorem. -/
theorem confirm_replay_rejected_409_witness :
    shopConfirmPaymentCheck
      [("t9", { order := {}, user := { id := "w", email := "w@x.y" },
                paymentMethod := "paypal", completed := true, createdAt := 3 })]
      { id := "w", email := "w@x.y" } "t9" "paypal" =
      .reject { status := 409, message := "payment already processed" } :=
  confirm_replay_rejected_409 _ _ "t9" "paypal"
    { order := {}, user := { id := "w", email := "w@x.y" },
      paymentMethod := "paypal", completed := true, createdAt := 3 }
    (by decide) (by decide) (by decide)

/-- C10 counterexample: a pending payment owned by a different user is not
always rejected with 403 — when the record is already completed, the replay
guard fires first and the handler answers 409, not 403. -/
theorem confirm_mismatch_completed_is_409 :
    shopConfirmPaymentCheck
      [("t2", { order := {}, user := { id := "owner", email := "o@x.y" },
                paymentMethod := "card", completed := true, createdAt := 0 })]
      { id := "other", email := "e@x.y" } "t2" "" =
      .reject { status := 409, message := "payment already processed" } := by
  rfl

/-- C10 (amended): for every `/shop/payments/confirm` request by an
authenticated session user whose (non-blank) token refers to a not yet
completed PendingPayment recording a different user id or a different
email, the handler rejects with 403 "payment token does not belong to this
user"; the check precedes every gateway call and store write, so no
inventory change, order append or pending-payment update occurs. -/
theorem confirm_ownership_rejected_403 (pending : List (String × PendingPayment))
    (authUser : UserData) (token reqMethod : String) (entry : PendingPayment)
    (htok : pyStrip token ≠ "")
    (hlook : mapLookup pending (pyStrip token) = some entry)
    (hnotdone : entry.completed = false)
    (hmism : pyStrip entry.user.id ≠ pyStrip authUser.id ∨
             pyLower (pyStrip entry.user.email) ≠ pyLower (pyStrip authUser.email)) :
    shopConfirmPaymentCheck pending authUser token reqMethod =
      .reject { status := 403, message := "payment token does not belong to this user" } := by
  unfold shopConfirmPaymentCheck
  rw [if_neg htok, hlook]
  simp only [hnotdone, if_false, Bool.false_eq_true]
  rw [if_pos hmism]

theorem mem_stripEntries {l : List String} {e : String} (he : e ∈ stripEntries l) :
    pyStrip e = e ∧ e ≠ "" := by
  unfold stripEntries at he
  obtain ⟨a, -, ha⟩ := List.mem_filterMap.mp he
  by_cases h : pyStrip a = ""
  · simp [h] at ha
  · rw [if_neg h] at ha
    obtain rfl := (Option.some.injEq _ _).mp ha |>.symm
    exact ⟨pyStrip_idem a, h⟩

theorem stripEntries_fixed {l : List String} (h : ∀ e ∈ l, pyStrip e = e ∧ e ≠ "") :
    stripEntries l = l := by
  induction l with
  | nil => rfl
  | cons a t ih =>
    obtain ⟨h1, h2⟩ := h a (by simp)
    have hne : pyStrip a ≠ "" := by rw [h1]; exact h2
    simp only [stripEntries, List.filterMap_cons, if_neg hne]
    rw [h1]
    have := ih (fun e he => h e (by simp [he]))
    simp only [stripEntries] at this
    rw [this]

theorem stripEntries_idem (l : List String) : stripEntries (stripEntries l) = stripEntries l :=
  stripEntries_fixed (fun _ he => mem_stripEntries he)

theorem keepNonblank_fixed {l : List String} (h : ∀ e ∈ l, pyStrip e ≠ "") :
    keepNonblank l = l := by
  unfold keepNonblank
  apply List.filter_eq_self.mpr
  intro e he
  simp [h e he]

theorem keepNonblank_stripEntries (l : List String) :
    keepNonblank (stripEntries l) = stripEntries l :=
  keepNonblank_fixed (fun e he => by rw [(mem_stripEntries he).1]; exact (mem_stripEntries he).2)

theorem stripEntries_sublist_fixed {l m : List String} (hsub : m ⊆ stripEntries l) :
    stripEntries m = m :=
  stripEntries_fixed (fun e he => mem_stripEntries (hsub he))

theorem stripEntries_length_keepNonblank (l : List String) :
    (stripEntries l).length = (keepNonblank l).length := by
  induction l with
  | nil => rfl
  | cons a t ih =>
    by_cases h : pyStrip a = ""
    · simp only [stripEntries, keepNonblank, List.filterMap_cons, List.filter_cons, if_pos h, h]
      simp only [stripEntries, keepNonblank] at ih
      simpa using ih
    · simp only [stripEntries, keepNonblank, List.filterMap_cons, List.filter_cons, if_neg h]
      simp only [h, bne_iff_ne, ne_eq, not_false_eq_true, if_true, List.length_cons]
      simp only [stripEntries, keepNonblank] at ih
      simp [ih]

theorem find?_decomp {α : Type} {f : α → Bool} {l : List α} {a : α}
    (h : l.find? f = some a) :
    ∃ pre post, l = pre ++ a :: post ∧ (∀ x ∈ pre, f x = false) := by
  induction l with
  | nil => simp at h
  | cons x t ih =>
    rcases hx : f x with _ | _
    · rw [List.find?_cons_of_neg _ (by simp [hx])] at h
      obtain ⟨pre, post, heq, hpre⟩ := ih h
      refine ⟨x :: pre, post, by rw [heq]; rfl, fun y hy => ?_⟩
      rcases List.mem_cons.mp hy with rfl | hy2
      · exact hx
      · exact hpre y hy2
    · rw [List.find?_cons_of_pos _ hx] at h
      obtain rfl := (Option.some.injEq _ _).mp h
      exact ⟨[], t, rfl, by simp⟩

theorem find?_append_first {α : Type} (f : α → Bool) (pre : List α) (a : α) (post : List α)
    (hpre : ∀ x ∈ pre, f x = false) (ha : f a = true) :
    (pre ++ a :: post).find? f = some a := by
  induction pre with
  | nil => simp [List.find?_cons_of_pos _ ha]
  | cons x t ih =>
    rw [List.cons_append, List.find?_cons_of_neg _ (by simp [hpre x (by simp)])]
    exact ih (fun y hy => hpre y (by simp [hy]))

theorem updateFirstTier_append (f : Tier → Tier) (tid : String) (pre : List Tier) (tier : Tier)
    (post : List Tier) (hpre : ∀ x ∈ pre, pyStrip x.id ≠ tid) (htier : pyStrip tier.id = tid) :
    updateFirstTier f tid (pre ++ tier :: post) = pre ++ f tier :: post := by
  induction pre with
  | nil => simp [updateFirstTier, htier]
  | cons x t ih =>
    simp only [List.cons_append, updateFirstTier, if_neg (hpre x (by simp))]
    have := ih (fun y hy => hpre y (by simp [hy]))
    simp only [List.append_eq] at this ⊢
    rw [this]

theorem updateStockGo_split (pid tid : String) (d : ℤ) (pre post : List Product) (p : Product)
    (hpre : ∀ q ∈ pre, q.id ≠ pid) (hid : p.id = pid) :
    updateStockGo pid tid d (pre ++ p :: post) =
      some ((stockHandleProduct tid d p post).1,
            (stockHandleProduct tid d p post).2.1,
            (stockHandleProduct tid d p post).2.2.map (fun l => pre ++ l)) := by
  induction pre with
  | nil =>
    simp only [List.nil_append, updateStockGo, if_pos hid]
    rcases hr : (stockHandleProduct tid d p post).2.2 with _ | l <;>
      simp [hr, Prod.ext_iff]
  | cons q qs ih =>
    simp only [List.cons_append, updateStockGo, if_neg (hpre q (by simp))]
    have hih := ih (fun x hx => hpre x (by simp [hx]))
    simp only [List.append_eq] at hih ⊢
    rw [hih]
    rcases hr : (stockHandleProduct tid d p post).2.2 with _ | l <;> simp [hr]

theorem normalizeTier_idem (t : Tier) : normalizeTier (normalizeTier t) = normalizeTier t := by
  simp only [normalizeTier, Option.getD_some, stripEntries_idem]
  congr 1
  exact pyStrip_idem t.id
  exact pyStrip_idem t.name

theorem stockHandle_pos (tid : String) (d : ℤ) (p : Product) (post : List Product)
    (hd : 0 < d)
    (htarget : (tid = "" ∧ p.tiers = some []) ∨ (tid ≠ "" ∧ (findTier p tid).isSome)) :
    stockHandleProduct tid d p post =
      (400, "Cannot increase stock numerically. Add real stock keys via /shop/inventory/add.",
       none) := by
  unfold stockHandleProduct
  rcases htarget with ⟨h1, h2⟩ | ⟨h1, h2⟩
  · subst h1
    rw [h2]
    simp only [Option.getD_some]
    rw [if_neg (by simp), if_neg (by simp), if_pos hd]
  · obtain ⟨tier, htier⟩ := Option.isSome_iff_exists.mp h2
    rw [if_neg (by tauto), if_pos h1, htier]
    dsimp only
    rw [if_pos hd]

theorem stockHandle_neg_product (d : ℤ) (p : Product) (post : List Product) (inv : List String)
    (hd : d < 0)
    (htiers : p.tiers = some [])
    (hinv : p.inventory = some inv)
    (hstrip : ∀ e ∈ inv, pyStrip e = e ∧ e ≠ "") :
    ∃ q, stockHandleProduct "" d p post = (200, "", some (q :: post)) ∧
      q.inventory = some (inv.take (inv.length - min d.natAbs inv.length)) ∧
      q.stock = some (max 0 ((inv.length : ℤ) + d)) := by
  unfold stockHandleProduct
  rw [htiers]
  simp only [Option.getD_some]
  rw [if_neg (by simp), if_neg (by simp), if_neg (by omega : ¬ 0 < d)]
  rw [hinv]
  simp only [Option.getD_some]
  rw [keepNonblank_fixed (fun e he => by rw [(hstrip e he).1]; exact (hstrip e he).2)]
  by_cases hne : inv = []
  · subst hne
    rw [if_neg (by simp)]
    refine ⟨_, rfl, ?_, ?_⟩
    · simp [normalizeProduct, htiers, stripEntries]
    · simp [normalizeProduct, computeProductStock, htiers, stripEntries]
      omega
  · rw [if_pos ⟨hd, hne⟩]
    refine ⟨_, rfl, ?_, ?_⟩
    · simp only [normalizeProduct, htiers, Option.getD_some]
      rw [stripEntries_fixed (fun e he => hstrip e (List.take_subset _ _ he))]
    · simp only [normalizeProduct, htiers, Option.getD_some, computeProductStock]
      simp only [List.filterMap_nil]
      simp only [stripEntries_fixed (fun e he => hstrip e (List.take_subset _ _ he)),
        Option.some.injEq, List.length_take]
      omega

theorem stockHandle_neg_tier (tid : String) (d : ℤ) (p0 : Product) (post : List Product)
    (tier : Tier) (tinv : List String)
    (hd : d < 0) (htid : tid ≠ "") (htidfix : pyStrip tid = tid)
    (hfind : findTier (normalizeProduct p0) tid = some tier)
    (htinv : tier.inventory = some tinv)
    (hstrip : ∀ e ∈ tinv, pyStrip e = e ∧ e ≠ "") :
    ∃ q t1, stockHandleProduct tid d (normalizeProduct p0) post = (200, "", some (q :: post)) ∧
      findTier q tid = some t1 ∧
      t1.inventory = some (tinv.take (tinv.length - min d.natAbs tinv.length)) ∧
      t1.stock = some (max 0 ((tinv.length : ℤ) + d)) := by
  have hpredtier : pyStrip tier.id = tid := by
    have := List.find?_some hfind
    simpa using this
  obtain ⟨tpre, tpost, hts, htpre⟩ := find?_decomp hfind
  have hpre2 : ∀ x ∈ tpre, pyStrip x.id ≠ tid := by
    intro x hx
    have := htpre x hx
    simpa using this
  have hpreN : ∀ x ∈ tpre.filterMap (fun t =>
      let nt := normalizeTier t
      if nt.id = "" then none else some nt),
      (fun t => decide (pyStrip t.id = tid)) x = false := by
    intro x hx
    obtain ⟨y, hy, hyx⟩ := List.mem_filterMap.mp hx
    by_cases hyid : (normalizeTier y).id = ""
    · simp [hyid] at hyx
    · rw [if_neg hyid] at hyx
      obtain rfl := ((Option.some.injEq _ _).mp hyx).symm
      have hxid : (normalizeTier y).id = pyStrip y.id := rfl
      simp only [hxid, pyStrip_idem]
      simpa using hpre2 y hy
  unfold stockHandleProduct
  rw [if_neg (by tauto), if_pos htid, hfind]
  dsimp only
  rw [htinv]
  simp only [Option.getD_some]
  rw [keepNonblank_fixed (fun e he => by rw [(hstrip e he).1]; exact (hstrip e he).2)]
  rw [if_neg (by omega : ¬ 0 < d)]
  by_cases hne : tinv = []
  · rw [if_neg (by simp [hne])]
    refine ⟨_, normalizeTier { tier with stock := some (0 ⊔ (tier.stock.getD 0 + d)), inventory := some tinv }, rfl, ?_, ?_, ?_⟩
    · -- findTier of the saved product hits the updated tier, re-normalized
      show ((List.filterMap _ (updateFirstTier _ tid
        ((normalizeProduct p0).tiers.getD []))).find? _) = _
      rw [hts, updateFirstTier_append _ _ _ _ _ hpre2 hpredtier,
          List.filterMap_append, List.filterMap_cons]
      have hid1 : (normalizeTier { tier with stock := some (0 ⊔ (tier.stock.getD 0 + d)), inventory := some tinv }).id = tid := hpredtier
      rw [if_neg (by rw [hid1]; exact htid)]
      exact find?_append_first _ _ _ _ hpreN
        (by simp only [decide_eq_true_eq]; rw [hid1]; exact htidfix)
    · show (normalizeTier _).inventory = _
      simp [normalizeTier, htinv, hne, stripEntries]
    · show (normalizeTier _).stock = _
      simp only [normalizeTier, htinv, hne, Option.getD_some]
      simp [stripEntries, hne]
      omega
  · rw [if_pos ⟨hd, hne⟩]
    refine ⟨_, normalizeTier { tier with inventory := some (tinv.take (tinv.length - min d.natAbs tinv.length)), stock := some (((tinv.take (tinv.length - min d.natAbs tinv.length)).length : ℕ) : ℤ) }, rfl, ?_, ?_, ?_⟩
    · show ((List.filterMap _ (updateFirstTier _ tid
        ((normalizeProduct p0).tiers.getD []))).find? _) = _
      rw [hts, updateFirstTier_append _ _ _ _ _ hpre2 hpredtier,
          List.filterMap_append, List.filterMap_cons]
      have hid1 : (normalizeTier { tier with inventory := some (tinv.take (tinv.length - min d.natAbs tinv.length)), stock := some (((tinv.take (tinv.length - min d.natAbs tinv.length)).length : ℕ) : ℤ) }).id = tid := hpredtier
      rw [if_neg (by rw [hid1]; exact htid)]
      exact find?_append_first _ _ _ _ hpreN
        (by simp only [decide_eq_true_eq]; rw [hid1]; exact htidfix)
    · show (normalizeTier _).inventory = _
      simp only [normalizeTier, Option.getD_some]
      rw [stripEntries_fixed (fun e he => hstrip e (List.take_subset _ _ he))]
    · show (normalizeTier _).stock = _
      simp only [normalizeTier, Option.getD_some]
      simp only [stripEntries_fixed (fun e he => hstrip e (List.take_subset _ _ he)),
        Option.some.injEq, List.length_take]
      omega

/-- Concrete stored catalog for exercising the stock-adjustment path:
one untiered product with three deliverable inventory keys. -/
def c6Prod : Product :=
  { id := "p1", price := some 1, inventory := some ["a", "b", "c"] }

/-- C6: adjustStock semantics. For a `/shop/stock` call that reaches an
existing stored (hence normalized) product: (a) a positive delta is rejected
with 400 and nothing is written; (b) with no tierId, a negative delta trims
`min(|delta|, len(inventory))` entries from the tail of the product's
inventory and records stock `max(0, len + delta)`, where the previously
stored stock was exactly `len(inventory)`; (c) with a tierId resolving to a
stored tier, the same trim applies to that tier's inventory and stock, the
tier's previously stored stock again being its inventory length — so in every
negative case the stored stock after the call is `max(0, previous stock +
delta)`, with a floor of zero. -/
theorem adjust_stock_semantics
    (sp : List Product) (productId tierId : String) (d : ℤ)
    (pre post : List Product) (p0 : Product)
    (hsplit : loadProducts sp = pre ++ normalizeProduct p0 :: post)
    (hpre : ∀ q ∈ pre, q.id ≠ pyStrip productId)
    (hid : (normalizeProduct p0).id = pyStrip productId)
    (hpid : pyStrip productId ≠ "") :
    (0 < d →
      ((pyStrip tierId = "" ∧ (normalizeProduct p0).tiers = some []) ∨
       (pyStrip tierId ≠ "" ∧ (findTier (normalizeProduct p0) (pyStrip tierId)).isSome)) →
      (shopUpdateStock sp productId tierId (some d)).status = 400 ∧
      (shopUpdateStock sp productId tierId (some d)).savedProducts = none) ∧
    (∀ inv, d < 0 → pyStrip tierId = "" → (normalizeProduct p0).tiers = some [] →
      (normalizeProduct p0).inventory = some inv →
      ∃ q, (shopUpdateStock sp productId tierId (some d)).status = 200 ∧
        (shopUpdateStock sp productId tierId (some d)).savedProducts =
          some (pre ++ q :: post) ∧
        q.inventory = some (inv.take (inv.length - min d.natAbs inv.length)) ∧
        q.stock = some (max 0 ((inv.length : ℤ) + d)) ∧
        (normalizeProduct p0).stock = some ((inv.length : ℤ))) ∧
    (∀ tier tinv, d < 0 → pyStrip tierId ≠ "" →
      findTier (normalizeProduct p0) (pyStrip tierId) = some tier →
      tier.inventory = some tinv →
      ∃ q t1, (shopUpdateStock sp productId tierId (some d)).status = 200 ∧
        (shopUpdateStock sp productId tierId (some d)).savedProducts =
          some (pre ++ q :: post) ∧
        findTier q (pyStrip tierId) = some t1 ∧
        t1.inventory = some (tinv.take (tinv.length - min d.natAbs tinv.length)) ∧
        t1.stock = some (max 0 ((tinv.length : ℤ) + d)) ∧
        tier.stock = some ((tinv.length : ℤ))) := by
  have hstep := updateStockGo_split (pyStrip productId) (pyStrip tierId) d pre post
    (normalizeProduct p0) hpre hid
  have hout : shopUpdateStock sp productId tierId (some d) =
      { status := (stockHandleProduct (pyStrip tierId) d (normalizeProduct p0) post).1,
        message := (stockHandleProduct (pyStrip tierId) d (normalizeProduct p0) post).2.1,
        savedProducts :=
          ((stockHandleProduct (pyStrip tierId) d (normalizeProduct p0) post).2.2).map
            (fun l => pre ++ l) } := by
    simp only [shopUpdateStock, if_neg hpid]
    rw [hsplit, hstep]
  refine ⟨?_, ?_, ?_⟩
  · intro hd htarget
    have h400 := stockHandle_pos (pyStrip tierId) d (normalizeProduct p0) post hd htarget
    have houta := hout
    rw [h400] at houta
    exact ⟨by rw [houta], by rw [houta]; rfl⟩
  · intro inv hd htid0 htiers hinv
    have hinv0 : (normalizeProduct p0).inventory =
        some (stripEntries (p0.inventory.getD [])) := rfl
    have hfix : stripEntries inv = inv := by
      rw [hinv0] at hinv
      rw [← Option.some.inj hinv]
      exact stripEntries_idem _
    have hstrip : ∀ e ∈ inv, pyStrip e = e ∧ e ≠ "" := by
      intro e he
      rw [← hfix] at he
      exact mem_stripEntries he
    obtain ⟨q, hq1, hq2, hq3⟩ :=
      stockHandle_neg_product d (normalizeProduct p0) post inv hd htiers hinv hstrip
    have houtb := hout
    rw [htid0, hq1] at houtb
    have hstock : (normalizeProduct p0).stock = some ((inv.length : ℤ)) := by
      have h2 : (normalizeProduct p0).stock = some (computeProductStock
          { tiers := (normalizeProduct p0).tiers,
            inventory := (normalizeProduct p0).inventory }) := rfl
      rw [htiers, hinv] at h2
      have h3 : computeProductStock { tiers := some [], inventory := some inv } =
          ((stripEntries inv).length : ℤ) := rfl
      rw [h3, hfix] at h2
      exact h2
    exact ⟨q, by rw [houtb], by rw [houtb]; rfl, hq2, hq3, hstock⟩
  · intro tier tinv hd htid hfind htinv
    have htid2 : pyStrip (pyStrip tierId) = pyStrip tierId := pyStrip_idem _
    have hfind2 : ((normalizeProduct p0).tiers.getD []).find?
        (fun t => pyStrip t.id = pyStrip tierId) = some tier := hfind
    have hmem := List.mem_of_find?_eq_some hfind2
    have hnt : (normalizeProduct p0).tiers.getD [] = (p0.tiers.getD []).filterMap
        (fun t => let nt := normalizeTier t; if nt.id = "" then none else some nt) := rfl
    rw [hnt] at hmem
    obtain ⟨t0, -, ht0⟩ := List.mem_filterMap.mp hmem
    have htier : tier = normalizeTier t0 := by
      by_cases hcase : (normalizeTier t0).id = ""
      · simp [hcase] at ht0
      · simp only [if_neg hcase] at ht0
        exact (Option.some.inj ht0).symm
    have htinv2 : tinv = stripEntries (t0.inventory.getD []) := by
      rw [htier] at htinv
      have h1 : (normalizeTier t0).inventory =
          some (stripEntries (t0.inventory.getD [])) := rfl
      rw [h1] at htinv
      exact (Option.some.inj htinv).symm
    have hstrip : ∀ e ∈ tinv, pyStrip e = e ∧ e ≠ "" := by
      intro e he
      rw [htinv2] at he
      exact mem_stripEntries he
    have hstock : tier.stock = some ((tinv.length : ℤ)) := by
      rw [htier]
      show some (((stripEntries (t0.inventory.getD [])).length : ℤ)) = _
      rw [← htinv2]
    obtain ⟨q, t1, hq1, hq2, hq3, hq4⟩ :=
      stockHandle_neg_tier (pyStrip tierId) d p0 post tier tinv hd htid htid2 hfind htinv hstrip
    have houtc := hout
    rw [hq1] at houtc
    exact ⟨q, t1, by rw [houtc], by rw [houtc]; rfl, hq2, hq3, hq4, hstock⟩

/-- Witness for C6: on a catalog holding one product with inventory
["a", "b", "c"], adjusting stock by -2 succeeds with the tail trimmed to
["a"] and stock 1, the previously stored stock having been 3. -/
theorem adjust_stock_semantics_witness :
    ∃ q, (shopUpdateStock [c6Prod] "p1" "" (some (-2))).status = 200 ∧
      (shopUpdateStock [c6Prod] "p1" "" (some (-2))).savedProducts =
        some ([] ++ q :: []) ∧
      q.inventory = some ((["a", "b", "c"] : List String).take
        ((["a", "b", "c"] : List String).length -
          min (-2 : ℤ).natAbs (["a", "b", "c"] : List String).length)) ∧
      q.stock = some (max 0 (((["a", "b", "c"] : List String).length : ℤ) + (-2))) ∧
      (normalizeProduct c6Prod).stock =
        some (((["a", "b", "c"] : List String).length : ℤ)) :=
  (adjust_stock_semantics [c6Prod] "p1" "" (-2) [] [] c6Prod rfl (by simp) rfl
    (by decide)).2.1 ["a", "b", "c"] (by decide) rfl rfl rfl

theorem upsertGo_split (pl nz : Product) (pre post : List Product) (ex : Product)
    (hpre : ∀ q ∈ pre, q.id ≠ nz.id) (hid : ex.id = nz.id) :
    upsertGo pl nz (pre ++ ex :: post) = some (pre ++ upsertMerge pl nz ex :: post) := by
  induction pre with
  | nil => simp [upsertGo, if_pos hid]
  | cons q qs ih =>
    simp only [List.cons_append, upsertGo, if_neg (hpre q (by simp))]
    rw [List.append_eq, ih (fun x hx => hpre x (by simp [hx]))]
    rfl

theorem upsertMerge_inventory (pl nz ex : Product) :
    (upsertMerge pl nz ex).inventory =
      (match pl.inventory, ex.inventory with
       | none, some l => some (keepNonblank l)
       | _, _ => nz.inventory) := by
  rcases hpi : pl.inventory with _ | l <;> rcases hei : ex.inventory with _ | m <;>
    rcases hpt : pl.tiers with _ | pts <;> rcases het : ex.tiers with _ | ets <;>
      simp only [upsertMerge, hpi, hei, hpt, het]

theorem upsertMerge_tiers_nopayload (pl nz ex : Product) (ets : List Tier)
    (hpt : pl.tiers = none) (het : ex.tiers = some ets) :
    (upsertMerge pl nz ex).tiers = some (ets.map normalizeTier) := by
  rcases hpi : pl.inventory with _ | l <;> rcases hei : ex.inventory with _ | m <;>
    simp only [upsertMerge, hpt, het, hpi, hei]

theorem upsertMerge_tiers_payload (pl nz ex : Product) (pts : List Tier)
    (hpt : pl.tiers = some pts) :
    (upsertMerge pl nz ex).tiers =
      some ((nz.tiers.getD []).filterMap (mergeTierFn pts (ex.tiers.getD []))) := by
  rcases hpi : pl.inventory with _ | l <;> rcases hei : ex.inventory with _ | m <;>
    rcases het : ex.tiers with _ | ets <;> simp only [upsertMerge, hpt, het, hpi, hei]

theorem mergeTierFn_some_id {pts ets : List Tier} {y x : Tier}
    (h : mergeTierFn pts ets y = some x) : x.id = pyStrip y.id := by
  unfold mergeTierFn at h
  by_cases hy : y.id = ""
  · simp [hy] at h
  · rw [if_neg hy] at h
    rcases hl : lookupLastTier ets y.id with _ | et <;> simp only [hl] at h
    · rw [← Option.some.inj h]
      rfl
    · rcases hei : et.inventory with _ | el <;> simp only [hei] at h
      · rw [← Option.some.inj h]
        rfl
      · by_cases hp : (match lookupLastTier pts y.id with
            | some rt => rt.inventory
            | none => none) = (none : Option (List String))
        · rw [if_pos hp] at h
          rw [← Option.some.inj h]
          rfl
        · rw [if_neg hp] at h
          rw [← Option.some.inj h]
          rfl

theorem mem_normTiers {p : Product} {x : Tier}
    (hx : x ∈ (normalizeProduct p).tiers.getD []) : ∃ t0, x = normalizeTier t0 := by
  have h1 : (normalizeProduct p).tiers.getD [] = (p.tiers.getD []).filterMap
      (fun t => let nt := normalizeTier t; if nt.id = "" then none else some nt) := rfl
  rw [h1] at hx
  obtain ⟨t0, -, ht0⟩ := List.mem_filterMap.mp hx
  by_cases hcase : (normalizeTier t0).id = ""
  · simp [hcase] at ht0
  · simp only [if_neg hcase] at ht0
    exact ⟨t0, (Option.some.inj ht0).symm⟩

/-- C7: upsert preserves stock. For a product upsert whose normalized id
matches an existing stored (hence normalized) product: if the payload carries
no inventory key the stored inventory list is kept unchanged; if the payload
carries no tiers key the stored tier list (including every tier inventory) is
kept unchanged — so a metadata-only edit never changes any inventory list —
and when the payload does carry a tiers array, any tier whose payload entry
lacks an inventory key keeps the stored tier's inventory and its derived
stock. -/
theorem upsert_preserves_stock
    (sp : List Product) (pl e0 : Product) (pre post : List Product)
    (hsplit : loadProducts sp = pre ++ normalizeProduct e0 :: post)
    (hpre : ∀ q ∈ pre, q.id ≠ (normalizeProduct pl).id)
    (hid : (normalizeProduct e0).id = (normalizeProduct pl).id)
    (hnz : (normalizeProduct pl).id ≠ "") :
    ∃ q, (shopUpsertProduct sp pl).status = 200 ∧
      (shopUpsertProduct sp pl).savedProducts = some (pre ++ q :: post) ∧
      (pl.inventory = none → q.inventory = (normalizeProduct e0).inventory) ∧
      (pl.tiers = none → q.tiers = (normalizeProduct e0).tiers) ∧
      (∀ pts tid nt et el, pl.tiers = some pts → tid ≠ "" →
        findTier (normalizeProduct pl) tid = some nt →
        (match lookupLastTier pts tid with
         | some rt => rt.inventory
         | none => none) = (none : Option (List String)) →
        lookupLastTier ((normalizeProduct e0).tiers.getD []) tid = some et →
        et.inventory = some el →
        ∃ t1, findTier q tid = some t1 ∧ t1.inventory = some el ∧
          t1.stock = some ((el.length : ℤ))) := by
  have hstep := upsertGo_split pl (normalizeProduct pl) pre post (normalizeProduct e0) hpre hid
  have hout : shopUpsertProduct sp pl =
      { status := 200,
        savedProducts :=
          some (pre ++ upsertMerge pl (normalizeProduct pl) (normalizeProduct e0) :: post) } := by
    simp only [shopUpsertProduct, if_neg hnz]
    rw [hsplit, hstep]
  refine ⟨upsertMerge pl (normalizeProduct pl) (normalizeProduct e0),
    by rw [hout], by rw [hout], ?_, ?_, ?_⟩
  · intro hplinv
    rw [upsertMerge_inventory, hplinv]
    have hexinv : (normalizeProduct e0).inventory =
        some (stripEntries (e0.inventory.getD [])) := rfl
    rw [hexinv]
    show some (keepNonblank (stripEntries (e0.inventory.getD []))) = _
    rw [keepNonblank_stripEntries]
  · intro hpltiers
    have hextiers : (normalizeProduct e0).tiers = some ((e0.tiers.getD []).filterMap
        (fun t => let nt := normalizeTier t; if nt.id = "" then none else some nt)) := rfl
    rw [upsertMerge_tiers_nopayload pl _ _ _ hpltiers hextiers, hextiers]
    congr 1
    have hfix : ∀ x ∈ (e0.tiers.getD []).filterMap
        (fun t => let nt := normalizeTier t; if nt.id = "" then none else some nt),
        normalizeTier x = x := by
      intro x hx
      have hx2 : x ∈ (normalizeProduct e0).tiers.getD [] := by
        rw [show (normalizeProduct e0).tiers.getD [] = (e0.tiers.getD []).filterMap
          (fun t => let nt := normalizeTier t; if nt.id = "" then none else some nt) from rfl]
        exact hx
      obtain ⟨t0, rfl⟩ := mem_normTiers hx2
      exact normalizeTier_idem t0
    rw [List.map_congr_left hfix]
    simp
  · intro pts tid nt et el hpt htid hfindnt hpinv hlooket hetinv
    have hfind2 : ((normalizeProduct pl).tiers.getD []).find?
        (fun t => decide (pyStrip t.id = tid)) = some nt := hfindnt
    obtain ⟨s0, hs0⟩ := mem_normTiers (List.mem_of_find?_eq_some hfind2)
    have hntfix : pyStrip nt.id = nt.id := by
      rw [hs0]
      exact pyStrip_idem _
    have hntid : nt.id = tid := by
      have hps := List.find?_some hfind2
      simp only [decide_eq_true_eq] at hps
      rw [← hntfix]
      exact hps
    have hmemet : et ∈ (normalizeProduct e0).tiers.getD [] :=
      List.mem_reverse.mp (List.mem_of_find?_eq_some hlooket)
    obtain ⟨t0, ht0⟩ := mem_normTiers hmemet
    have helfix : stripEntries el = el := by
      have h1 : et.inventory = some (stripEntries (t0.inventory.getD [])) := by
        rw [ht0]
        rfl
      rw [h1] at hetinv
      rw [← Option.some.inj hetinv]
      exact stripEntries_idem _
    obtain ⟨tpre, tpost, hts, htpre⟩ := find?_decomp hfind2
    have hqt := upsertMerge_tiers_payload pl (normalizeProduct pl) (normalizeProduct e0) pts hpt
    have hgnt : mergeTierFn pts ((normalizeProduct e0).tiers.getD []) nt =
        some (normalizeTier { nt with inventory := some (stripEntries el), stock := some ((stripEntries el).length : ℤ) }) := by
      unfold mergeTierFn
      rw [if_neg (by rw [hntid]; exact htid)]
      dsimp only
      rw [hntid, hlooket]
      dsimp only
      rw [hetinv]
      dsimp only
      rcases hlp : lookupLastTier pts tid with _ | rt
      · dsimp only
        rw [if_pos rfl]
      · simp only [hlp] at hpinv
        dsimp only
        rw [if_pos hpinv]
    have hmerged : ((normalizeProduct pl).tiers.getD []).filterMap
        (mergeTierFn pts ((normalizeProduct e0).tiers.getD [])) =
        tpre.filterMap (mergeTierFn pts ((normalizeProduct e0).tiers.getD [])) ++
          normalizeTier { nt with inventory := some (stripEntries el), stock := some ((stripEntries el).length : ℤ) } ::
          tpost.filterMap (mergeTierFn pts ((normalizeProduct e0).tiers.getD [])) := by
      rw [hts, List.filterMap_append, List.filterMap_cons, hgnt]
    refine ⟨normalizeTier { nt with inventory := some (stripEntries el), stock := some ((stripEntries el).length : ℤ) }, ?_, ?_, ?_⟩
    · show ((upsertMerge pl (normalizeProduct pl) (normalizeProduct e0)).tiers.getD []).find?
        (fun t => decide (pyStrip t.id = tid)) = _
      rw [hqt]
      simp only [Option.getD_some]
      rw [hmerged]
      apply find?_append_first
      · intro x hx
        obtain ⟨y, hy, hyx⟩ := List.mem_filterMap.mp hx
        have hxid := mergeTierFn_some_id hyx
        simp only [hxid, pyStrip_idem]
        simpa using htpre y hy
      · simp only [decide_eq_true_eq]
        show pyStrip (pyStrip nt.id) = tid
        rw [pyStrip_idem, hntfix]
        exact hntid
    · show some (stripEntries (stripEntries el)) = some el
      rw [stripEntries_idem, helfix]
    · show some (((stripEntries (stripEntries el)).length : ℤ)) = some ((el.length : ℤ))
      rw [stripEntries_idem, helfix]

/-- Stored catalog entry for the upsert frame test: one product with two
credential keys and no tiers. -/
def c7Stored : Product :=
  { id := "p2", price := some 5, inventory := some ["x1", "x2"] }

/-- A metadata-only upsert payload for the same id: new price, no inventory
key, no tiers key. -/
def c7Payload : Product :=
  { id := "p2", price := some 9 }

/-- Witness for C7: a metadata-only re-upsert of product p2 succeeds and the
saved product keeps the stored inventory and tier list unchanged. -/
theorem upsert_preserves_stock_witness :
    ∃ q, (shopUpsertProduct [c7Stored] c7Payload).status = 200 ∧
      (shopUpsertProduct [c7Stored] c7Payload).savedProducts = some ([] ++ q :: []) ∧
      (c7Payload.inventory = none → q.inventory = (normalizeProduct c7Stored).inventory) ∧
      (c7Payload.tiers = none → q.tiers = (normalizeProduct c7Stored).tiers) ∧
      (∀ pts tid nt et el, c7Payload.tiers = some pts → tid ≠ "" →
        findTier (normalizeProduct c7Payload) tid = some nt →
        (match lookupLastTier pts tid with
         | some rt => rt.inventory
         | none => none) = (none : Option (List String)) →
        lookupLastTier ((normalizeProduct c7Stored).tiers.getD []) tid = some et →
        et.inventory = some el →
        ∃ t1, findTier q tid = some t1 ∧ t1.inventory = some el ∧
          t1.stock = some ((el.length : ℤ))) :=
  upsert_preserves_stock [c7Stored] c7Payload c7Stored [] [] rfl (by simp) rfl (by decide)

/-- The derived-stock invariant for one tier: the persisted counter equals
the inventory length. -/
def tierStockOk (t : Tier) : Bool :=
  t.stock == some (((t.inventory.getD []).length : ℤ))

/-- The derived-stock invariant for one product: every tier satisfies
`tierStockOk`, and the product counter is the tier-stock sum when tiered,
the inventory length otherwise. -/
def productStockOk (p : Product) : Bool :=
  (p.tiers.getD []).all tierStockOk &&
  (match p.tiers with
   | some (t :: ts) => p.stock == some (((t :: ts).map (fun x => x.stock.getD 0)).sum)
   | _ => p.stock == some (((p.inventory.getD []).length : ℤ)))

theorem tierStockOk_normalize (t : Tier) : tierStockOk (normalizeTier t) = true := by
  simp [tierStockOk, normalizeTier]

theorem foldl_add_map {α : Type} (f : α → ℤ) (L : List α) (a : ℤ) :
    L.foldl (fun acc x => acc + f x) a = a + (L.map f).sum := by
  induction L generalizing a with
  | nil => simp
  | cons x t ih =>
    simp only [List.foldl_cons, List.map_cons, List.sum_cons, ih]
    ring

theorem productStockOk_of_parts (q : Product)
    (hstock : q.stock = some (computeProductStock q))
    (htiers : ∀ x ∈ q.tiers.getD [], ∃ z, x = normalizeTier z)
    (hinv : stripEntries (q.inventory.getD []) = q.inventory.getD []) :
    productStockOk q = true := by
  have htiersOk : ∀ x ∈ q.tiers.getD [], tierStockOk x = true := by
    intro x hx
    obtain ⟨z, rfl⟩ := htiers x hx
    exact tierStockOk_normalize z
  unfold productStockOk
  rw [Bool.and_eq_true]
  refine ⟨List.all_eq_true.mpr htiersOk, ?_⟩
  have huntier : q.tiers = none ∨ q.tiers = some [] →
      computeProductStock q = ((q.inventory.getD []).length : ℤ) := by
    intro hcase
    unfold computeProductStock
    rcases hqi : q.inventory with _ | m
    · rcases hcase with hqt | hqt <;> rw [hqt] <;> simp
    · rw [hqi] at hinv
      simp only [Option.getD_some] at hinv
      rcases hcase with hqt | hqt <;> rw [hqt] <;> dsimp only <;>
        simp only [Option.getD_some, hinv]
  rcases hqt : q.tiers with _ | l
  · dsimp only
    rw [hstock, huntier (Or.inl hqt)]
    simp
  · rcases l with _ | ⟨t, ts⟩
    · dsimp only
      rw [hstock, huntier (Or.inr hqt)]
      simp
    · dsimp only
      have hcs : computeProductStock q = ((t :: ts).map (fun x => x.stock.getD 0)).sum := by
        unfold computeProductStock
        rw [hqt]
        dsimp only
        rw [foldl_add_map (fun tier => match tier.inventory with
          | some l => ((stripEntries l).length : ℤ)
          | none => tier.stock.getD 0) (t :: ts) 0]
        rw [zero_add]
        have hmapeq : (t :: ts).map (fun tier => match tier.inventory with
            | some l => ((stripEntries l).length : ℤ)
            | none => tier.stock.getD 0) = (t :: ts).map (fun x => x.stock.getD 0) := by
          apply List.map_congr_left
          intro x hx
          obtain ⟨z, rfl⟩ := htiers x (by simpa [hqt] using hx)
          show ((stripEntries (stripEntries (z.inventory.getD []))).length : ℤ) =
            ((stripEntries (z.inventory.getD [])).length : ℤ)
          rw [stripEntries_idem]
        rw [hmapeq]
        have hnn : 0 ≤ ((t :: ts).map (fun x => x.stock.getD 0)).sum := by
          apply List.sum_nonneg
          intro a ha
          obtain ⟨x, hx, rfl⟩ := List.mem_map.mp ha
          obtain ⟨z, rfl⟩ := htiers x (by simpa [hqt] using hx)
          show (0 : ℤ) ≤ ((stripEntries (z.inventory.getD [])).length : ℤ)
          exact Int.natCast_nonneg _
        exact max_eq_right hnn
      rw [hstock, hcs]
      simp

theorem mem_loadProducts {sp : List Product} {p : Product} (h : p ∈ loadProducts sp) :
    ∃ p0, p = normalizeProduct p0 := by
  unfold loadProducts at h
  obtain ⟨a, -, ha⟩ := List.mem_map.mp h
  exact ⟨a, ha.symm⟩

theorem productStockOk_normalize (p : Product) : productStockOk (normalizeProduct p) = true := by
  apply productStockOk_of_parts
  · rfl
  · intro x hx
    exact mem_normTiers hx
  · show stripEntries (stripEntries (p.inventory.getD [])) = stripEntries (p.inventory.getD [])
    exact stripEntries_idem _

theorem upsertMerge_stock (pl nz ex : Product) :
    (upsertMerge pl nz ex).stock = some (computeProductStock (upsertMerge pl nz ex)) := rfl

theorem upsertMerge_tiers_cases (pl nz ex : Product) :
    (upsertMerge pl nz ex).tiers = nz.tiers ∨
    (∃ l, ex.tiers = some l ∧ (upsertMerge pl nz ex).tiers = some (l.map normalizeTier)) ∨
    (∃ pts, pl.tiers = some pts ∧ (upsertMerge pl nz ex).tiers =
      some ((nz.tiers.getD []).filterMap (mergeTierFn pts (ex.tiers.getD [])))) := by
  rcases hpt : pl.tiers with _ | pts
  · rcases het : ex.tiers with _ | ets
    · left
      rcases hpi : pl.inventory with _ | l <;> rcases hei : ex.inventory with _ | m <;>
        simp only [upsertMerge, hpt, het, hpi, hei]
    · exact Or.inr (Or.inl ⟨ets, rfl, upsertMerge_tiers_nopayload pl nz ex ets hpt het⟩)
  · exact Or.inr (Or.inr ⟨pts, rfl, upsertMerge_tiers_payload pl nz ex pts hpt⟩)

theorem mergeTierFn_some_norm {pts ets : List Tier} {y x : Tier}
    (h : mergeTierFn pts ets y = some x) : ∃ z, x = normalizeTier z := by
  unfold mergeTierFn at h
  by_cases hy : y.id = ""
  · simp [hy] at h
  · rw [if_neg hy] at h
    rcases hl : lookupLastTier ets y.id with _ | et <;> simp only [hl] at h
    · exact ⟨y, (Option.some.inj h).symm⟩
    · rcases hei : et.inventory with _ | el <;> simp only [hei] at h
      · exact ⟨y, (Option.some.inj h).symm⟩
      · by_cases hp : (match lookupLastTier pts y.id with
            | some rt => rt.inventory
            | none => none) = (none : Option (List String))
        · rw [if_pos hp] at h
          exact ⟨_, (Option.some.inj h).symm⟩
        · rw [if_neg hp] at h
          exact ⟨y, (Option.some.inj h).symm⟩

theorem productStockOk_upsertMerge (pl e0 : Product) :
    productStockOk (upsertMerge pl (normalizeProduct pl) (normalizeProduct e0)) = true := by
  apply productStockOk_of_parts
  · exact upsertMerge_stock _ _ _
  · intro x hx
    rcases upsertMerge_tiers_cases pl (normalizeProduct pl) (normalizeProduct e0) with
      hc | ⟨l, hl, hc⟩ | ⟨pts, hpt, hc⟩
    · rw [hc] at hx
      exact mem_normTiers hx
    · rw [hc] at hx
      simp only [Option.getD_some] at hx
      obtain ⟨y, -, hy⟩ := List.mem_map.mp hx
      exact ⟨y, hy.symm⟩
    · rw [hc] at hx
      simp only [Option.getD_some] at hx
      obtain ⟨y, -, hy⟩ := List.mem_filterMap.mp hx
      exact mergeTierFn_some_norm hy
  · rw [upsertMerge_inventory]
    rcases hpi : pl.inventory with _ | l
    · have hexinv : (normalizeProduct e0).inventory =
          some (stripEntries (e0.inventory.getD [])) := rfl
      rw [hexinv]
      dsimp only
      simp only [Option.getD_some]
      rw [keepNonblank_stripEntries]
      exact stripEntries_idem _
    · dsimp only
      show stripEntries ((some (stripEntries (pl.inventory.getD []))).getD []) =
        (some (stripEntries (pl.inventory.getD []))).getD []
      simp only [Option.getD_some]
      exact stripEntries_idem _

theorem upsertGo_mem (pl nz : Product) (l m : List Product)
    (h : upsertGo pl nz l = some m) :
    ∀ p ∈ m, p ∈ l ∨ ∃ ex, ex ∈ l ∧ p = upsertMerge pl nz ex := by
  induction l generalizing m with
  | nil => simp [upsertGo] at h
  | cons x xs ih =>
    unfold upsertGo at h
    by_cases hx : x.id = nz.id
    · rw [if_pos hx] at h
      obtain rfl := Option.some.inj h
      intro p hp
      rcases List.mem_cons.mp hp with rfl | hmem
      · exact Or.inr ⟨x, by simp, rfl⟩
      · exact Or.inl (by simp [hmem])
    · rw [if_neg hx] at h
      rcases hrec : upsertGo pl nz xs with _ | m0
      · rw [hrec] at h
        simp at h
      · rw [hrec] at h
        simp only [Option.map_some'] at h
        obtain rfl := Option.some.inj h
        intro p hp
        rcases List.mem_cons.mp hp with rfl | hmem
        · exact Or.inl (by simp)
        · rcases ih m0 hrec p hmem with hl | ⟨ex, hex, hpe⟩
          · exact Or.inl (by simp [hl])
          · exact Or.inr ⟨ex, by simp [hex], hpe⟩

theorem stockHandle_mem (tid : String) (d : ℤ) (p : Product) (ps m : List Product)
    (hm : (stockHandleProduct tid d p ps).2.2 = some m) :
    ∀ x ∈ m, x ∈ ps ∨ ∃ p0, x = normalizeProduct p0 := by
  unfold stockHandleProduct at hm
  by_cases h1 : ((p.tiers.getD []) ≠ []) ∧ tid = ""
  · rw [if_pos h1] at hm
    simp at hm
  · rw [if_neg h1] at hm
    by_cases h2 : tid ≠ ""
    · rw [if_pos h2] at hm
      rcases hf : findTier p tid with _ | tier
      · rw [hf] at hm
        simp at hm
      · rw [hf] at hm
        dsimp only at hm
        by_cases h3 : 0 < d
        · rw [if_pos h3] at hm
          simp at hm
        · rw [if_neg h3] at hm
          dsimp only at hm
          obtain rfl := Option.some.inj hm
          intro x hx
          rcases List.mem_cons.mp hx with rfl | hmem
          · exact Or.inr ⟨_, rfl⟩
          · exact Or.inl hmem
    · rw [if_neg h2] at hm
      dsimp only at hm
      by_cases h3 : 0 < d
      · rw [if_pos h3] at hm
        simp at hm
      · rw [if_neg h3] at hm
        dsimp only at hm
        obtain rfl := Option.some.inj hm
        intro x hx
        rcases List.mem_cons.mp hx with rfl | hmem
        · exact Or.inr ⟨_, rfl⟩
        · exact Or.inl hmem

theorem updateStockGo_mem (pid tid : String) (d : ℤ) (l : List Product)
    (r : Nat × String × Option (List Product)) (m : List Product)
    (h : updateStockGo pid tid d l = some r) (hm : r.2.2 = some m) :
    ∀ p ∈ m, p ∈ l ∨ ∃ p0, p = normalizeProduct p0 := by
  induction l generalizing r m with
  | nil => simp [updateStockGo] at h
  | cons x xs ih =>
    unfold updateStockGo at h
    by_cases hx : x.id = pid
    · rw [if_pos hx] at h
      obtain rfl := Option.some.inj h
      intro p hp
      rcases stockHandle_mem tid d x xs m hm p hp with hmem | hnorm
      · exact Or.inl (by simp [hmem])
      · exact Or.inr hnorm
    · rw [if_neg hx] at h
      rcases hrec : updateStockGo pid tid d xs with _ | r0
      · rw [hrec] at h
        simp at h
      · rw [hrec] at h
        simp only [Option.map_some'] at h
        obtain rfl := Option.some.inj h
        dsimp only at hm
        rcases hr0 : r0.2.2 with _ | m0
        · rw [hr0] at hm
          simp at hm
        · rw [hr0] at hm
          simp only [Option.map_some'] at hm
          obtain rfl := Option.some.inj hm
          intro p hp
          rcases List.mem_cons.mp hp with rfl | hmem
          · exact Or.inl (by simp)
          · rcases ih r0 m0 hrec hr0 p hmem with hl | hn
            · exact Or.inl (by simp [hl])
            · exact Or.inr hn

theorem addInvHandle_mem (tid : String) (items : List String) (p : Product) (ps m : List Product)
    (hm : (addInvHandle tid items p ps).2.2 = some m) :
    ∀ x ∈ m, x ∈ ps ∨ ∃ p0, x = normalizeProduct p0 := by
  unfold addInvHandle at hm
  by_cases h1 : tid ≠ ""
  · rw [if_pos h1] at hm
    rcases hf : findTier p tid with _ | tier
    · rw [hf] at hm
      simp at hm
    · rw [hf] at hm
      dsimp only at hm
      obtain rfl := Option.some.inj hm
      intro x hx
      rcases List.mem_cons.mp hx with rfl | hmem
      · exact Or.inr ⟨_, rfl⟩
      · exact Or.inl hmem
  · rw [if_neg h1] at hm
    dsimp only at hm
    obtain rfl := Option.some.inj hm
    intro x hx
    rcases List.mem_cons.mp hx with rfl | hmem
    · exact Or.inr ⟨_, rfl⟩
    · exact Or.inl hmem

theorem addInvGo_mem (pid tid : String) (items : List String) (l : List Product)
    (r : Nat × String × Option (List Product)) (m : List Product)
    (h : addInvGo pid tid items l = some r) (hm : r.2.2 = some m) :
    ∀ p ∈ m, p ∈ l ∨ ∃ p0, p = normalizeProduct p0 := by
  induction l generalizing r m with
  | nil => simp [addInvGo] at h
  | cons x xs ih =>
    unfold addInvGo at h
    by_cases hx : x.id = pid
    · rw [if_pos hx] at h
      obtain rfl := Option.some.inj h
      intro p hp
      rcases addInvHandle_mem tid items x xs m hm p hp with hmem | hnorm
      · exact Or.inl (by simp [hmem])
      · exact Or.inr hnorm
    · rw [if_neg hx] at h
      rcases hrec : addInvGo pid tid items xs with _ | r0
      · rw [hrec] at h
        simp at h
      · rw [hrec] at h
        simp only [Option.map_some'] at h
        obtain rfl := Option.some.inj h
        dsimp only at hm
        rcases hr0 : r0.2.2 with _ | m0
        · rw [hr0] at hm
          simp at hm
        · rw [hr0] at hm
          simp only [Option.map_some'] at hm
          obtain rfl := Option.some.inj hm
          intro p hp
          rcases List.mem_cons.mp hp with rfl | hmem
          · exact Or.inl (by simp)
          · rcases ih r0 m0 hrec hr0 p hmem with hl | hn
            · exact Or.inl (by simp [hl])
            · exact Or.inr hn

theorem stockOk_upsert (sp : List Product) (pl : Product) (ps : List Product) (p : Product)
    (h : (shopUpsertProduct sp pl).savedProducts = some ps) (hp : p ∈ ps) :
    productStockOk p = true := by
  unfold shopUpsertProduct at h
  by_cases h1 : (normalizeProduct pl).id = ""
  · rw [if_pos h1] at h
    simp at h
  · rw [if_neg h1] at h
    dsimp only at h
    rcases hgo : upsertGo pl (normalizeProduct pl) (loadProducts sp) with _ | saved
    · rw [hgo] at h
      dsimp only at h
      obtain rfl := Option.some.inj h
      rcases List.mem_append.mp hp with hmem | hmem
      · obtain ⟨p0, rfl⟩ := mem_loadProducts hmem
        exact productStockOk_normalize p0
      · simp only [List.mem_singleton] at hmem
        subst hmem
        exact productStockOk_normalize pl
    · rw [hgo] at h
      dsimp only at h
      obtain rfl := Option.some.inj h
      rcases upsertGo_mem pl (normalizeProduct pl) (loadProducts sp) saved hgo p hp with
        hmem | ⟨ex, hex, rfl⟩
      · obtain ⟨p0, rfl⟩ := mem_loadProducts hmem
        exact productStockOk_normalize p0
      · obtain ⟨e0, rfl⟩ := mem_loadProducts hex
        exact productStockOk_upsertMerge pl e0

theorem stockOk_delete (sp : List Product) (pid : String) (ps : List Product) (p : Product)
    (h : (shopDeleteProduct sp pid).savedProducts = some ps) (hp : p ∈ ps) :
    productStockOk p = true := by
  unfold shopDeleteProduct at h
  by_cases h1 : pyStrip pid = ""
  · rw [if_pos h1] at h
    simp at h
  · rw [if_neg h1] at h
    dsimp only at h
    by_cases h2 : ((loadProducts sp).filter (fun q => q.id ≠ pyStrip pid)).length =
        (loadProducts sp).length
    · rw [if_pos h2] at h
      simp at h
    · rw [if_neg h2] at h
      dsimp only at h
      obtain rfl := Option.some.inj h
      obtain ⟨p0, rfl⟩ := mem_loadProducts (List.mem_of_mem_filter hp)
      exact productStockOk_normalize p0

theorem stockOk_addInventory (sp : List Product) (pid tid : String)
    (raw : Option (List String)) (ps : List Product) (p : Product)
    (h : (shopAddInventory sp pid tid raw).savedProducts = some ps) (hp : p ∈ ps) :
    productStockOk p = true := by
  unfold shopAddInventory at h
  by_cases h1 : pyStrip pid = ""
  · rw [if_pos h1] at h
    simp at h
  · rw [if_neg h1] at h
    dsimp only at h
    rcases raw with _ | rawl
    · simp at h
    · dsimp only at h
      by_cases h2 : stripEntries rawl = []
      · rw [if_pos h2] at h
        simp at h
      · rw [if_neg h2] at h
        rcases hgo : addInvGo (pyStrip pid) (pyStrip tid) (stripEntries rawl)
            (loadProducts sp) with _ | r
        · rw [hgo] at h
          simp at h
        · rw [hgo] at h
          dsimp only at h
          rcases addInvGo_mem _ _ _ _ r ps hgo h p hp with hmem | ⟨p0, rfl⟩
          · obtain ⟨p0, rfl⟩ := mem_loadProducts hmem
            exact productStockOk_normalize p0
          · exact productStockOk_normalize p0

theorem stockOk_updateStock (sp : List Product) (pid tid : String) (dlt : Option ℤ)
    (ps : List Product) (p : Product)
    (h : (shopUpdateStock sp pid tid dlt).savedProducts = some ps) (hp : p ∈ ps) :
    productStockOk p = true := by
  unfold shopUpdateStock at h
  by_cases h1 : pyStrip pid = ""
  · rw [if_pos h1] at h
    simp at h
  · rw [if_neg h1] at h
    rcases dlt with _ | d
    · simp at h
    · dsimp only at h
      rcases hgo : updateStockGo (pyStrip pid) (pyStrip tid) d (loadProducts sp) with _ | r
      · rw [hgo] at h
        simp at h
      · rw [hgo] at h
        dsimp only at h
        rcases updateStockGo_mem _ _ _ _ r ps hgo h p hp with hmem | ⟨p0, rfl⟩
        · obtain ⟨p0, rfl⟩ := mem_loadProducts hmem
          exact productStockOk_normalize p0
        · exact productStockOk_normalize p0

theorem stockOk_purchase (now : ℤ) (sp : List Product) (so : List Order)
    (od : OrderData) (u : UserData) (pm : String) (ps : List Product) (p : Product)
    (h : (processPurchase now sp so od u pm).savedProducts = some ps) (hp : p ∈ ps) :
    productStockOk p = true := by
  unfold processPurchase at h
  rcases hit : od.items with _ | items
  · rw [hit] at h
    simp at h
  · rcases items with _ | ⟨i, rest⟩
    · rw [hit] at h
      simp at h
    · rw [hit] at h
      dsimp only at h
      rcases hdup : (if pyStrip od.id = "" then none
          else so.find? (fun o => pyStrip o.id = pyStrip od.id)) with _ | ex
      · rw [hdup] at h
        dsimp only at h
        rcases hres : reserveCheck (buildProductsById (loadProducts sp)) (i :: rest) with _ | e
        · rw [hres] at h
          dsimp only at h
          rcases halloc : allocateGo (buildProductsById (loadProducts sp)) [] (i :: rest) with
            e | pr
          · rw [halloc] at h
            simp at h
          · rw [halloc] at h
            dsimp only at h
            obtain rfl := Option.some.inj h
            obtain ⟨q0, -, rfl⟩ := List.mem_map.mp hp
            exact productStockOk_normalize q0
        · rw [hres] at h
          simp at h
      · rw [hdup] at h
        dsimp only at h
        by_cases hso : sameOwner u ex
        · rw [if_pos hso] at h
          simp at h
        · rw [if_neg hso] at h
          simp at h

/-- C5: derived-stock conservation. After every operation that writes the
products state — upsert, delete, add-inventory, stock adjustment, and
purchase allocation — every product in the written document satisfies the
derived-stock invariant: each tier's stock equals the length of its
inventory, and the product stock equals the tier-stock sum when tiered and
the product inventory length otherwise. -/
theorem stock_conservation :
    (∀ sp pl ps p, (shopUpsertProduct sp pl).savedProducts = some ps → p ∈ ps →
      productStockOk p = true) ∧
    (∀ sp pid ps p, (shopDeleteProduct sp pid).savedProducts = some ps → p ∈ ps →
      productStockOk p = true) ∧
    (∀ sp pid tid raw ps p,
      (shopAddInventory sp pid tid raw).savedProducts = some ps → p ∈ ps →
      productStockOk p = true) ∧
    (∀ sp pid tid dlt ps p,
      (shopUpdateStock sp pid tid dlt).savedProducts = some ps → p ∈ ps →
      productStockOk p = true) ∧
    (∀ now sp so od u pm ps p,
      (processPurchase now sp so od u pm).savedProducts = some ps → p ∈ ps →
      productStockOk p = true) :=
  ⟨stockOk_upsert, stockOk_delete, stockOk_addInventory, stockOk_updateStock, stockOk_purchase⟩

/-- Witness for C5: deleting product p1 from a two-product catalog writes a
document whose remaining product satisfies the derived-stock invariant. -/
theorem stock_conservation_witness :
    productStockOk (normalizeProduct c7Stored) = true :=
  stock_conservation.2.1 [c6Prod, c7Stored] "p1" [normalizeProduct c7Stored]
    (normalizeProduct c7Stored) rfl (by simp)

/-- The projection of an order line to the fields `_prepare_order_items`
actually reads; price, originalPrice, name and tierName are dropped. -/
def scrubItem (it : Item) : Item :=
  { id := it.id, productId := it.productId, tierId := it.tierId, quantity := it.quantity }

/-- A prepared line's unit price is the current catalog price of its resolved
product, or of its resolved tier when a tier id is present, rounded to two
decimals. -/
def linePriceOk (byId : List (String × Product)) (line : Item) : Prop :=
  ∃ product, mapLookup byId (itemResolvedId line) = some product ∧
    ((pyStrip line.tierId = "" ∧ line.price = some (round2 (product.price.getD 0))) ∨
     (∃ tier, pyStrip line.tierId ≠ "" ∧ findTier product (pyStrip line.tierId) = some tier ∧
       line.price = some (round2 (tier.price.getD 0))))

theorem itemResolvedId_fix (it : Item) : pyStrip (itemResolvedId it) = itemResolvedId it := by
  unfold itemResolvedId
  dsimp only
  split <;> split <;> exact pyStrip_idem _

theorem itemResolvedId_of_productId (it : Item) (h : pyStrip it.productId = it.productId)
    (hne : it.productId ≠ "") : itemResolvedId it = it.productId := by
  unfold itemResolvedId
  dsimp only
  rw [if_pos hne, h, if_neg (fun hc => hne hc.1)]

theorem foldq_add_map {α : Type} (f : α → ℚ) (L : List α) (a : ℚ) :
    L.foldl (fun acc x => acc + f x) a = a + (L.map f).sum := by
  induction L generalizing a with
  | nil => simp
  | cons x t ih =>
    simp only [List.foldl_cons, List.map_cons, List.sum_cons, ih]
    ring

theorem orderTotalOf_simple (items : List Item)
    (hq : ∀ it ∈ items, ∃ q, it.quantity = some q ∧ 1 ≤ q) :
    orderTotalOf items = round2 ((items.map
      (fun it => it.price.getD 0 * ((it.quantity.getD 0 : ℤ) : ℚ))).sum) := by
  unfold orderTotalOf
  rw [foldq_add_map (fun it => it.price.getD 0 *
    (max 1 (if ((it.quantity.getD 1 : ℤ) : ℚ) = 0 then 1 else ((it.quantity.getD 1 : ℤ) : ℚ))))
    items 0]
  rw [zero_add]
  congr 1
  congr 1
  apply List.map_congr_left
  intro it hit
  obtain ⟨q, hqe, h1q⟩ := hq it hit
  rw [hqe]
  simp only [Option.getD_some]
  rw [if_neg (by exact_mod_cast (by omega : ¬ q = 0)),
    max_eq_right (by exact_mod_cast h1q)]

theorem prepareGo_scrub (byId : List (String × Product)) (its : List Item)
    (acc : List Item) (tot : ℚ) :
    prepareGo byId (its.map scrubItem) acc tot = prepareGo byId its acc tot := by
  induction its generalizing acc tot with
  | nil => rfl
  | cons it rest ih =>
    simp only [List.map_cons]
    unfold prepareGo
    rw [show itemResolvedId (scrubItem it) = itemResolvedId it from rfl,
        show pyStrip (scrubItem it).tierId = pyStrip it.tierId from rfl,
        show (scrubItem it).quantity = it.quantity from rfl,
        show pyStrip (scrubItem it).id = pyStrip it.id from rfl]
    simp only [ih]

theorem prepareGo_lines (byId : List (String × Product)) (its : List Item) :
    ∀ (acc : List Item) (tot : ℚ) (out : List Item) (total : ℚ),
    prepareGo byId its acc tot = .ok (out, total) →
    ∀ line ∈ out, line ∈ acc.reverse ∨
      ((∃ q, line.quantity = some q ∧ 1 ≤ q) ∧ linePriceOk byId line) := by
  induction its with
  | nil =>
    intro acc tot out total h line hl
    unfold prepareGo at h
    have h2 := Except.ok.inj h
    obtain rfl : acc.reverse = out := congrArg Prod.fst h2
    exact Or.inl hl
  | cons it rest ih =>
    intro acc tot out total h line hl
    unfold prepareGo at h
    by_cases hg : itemResolvedId it = "" ∨ it.quantity.getD 0 ≤ 0
    · rw [if_pos hg] at h
      exact absurd h (by simp)
    · rw [if_neg hg] at h
      obtain ⟨hid, hqpos⟩ := not_or.mp hg
      have hq1 : 1 ≤ it.quantity.getD 0 := by omega
      rcases hlk : mapLookup byId (itemResolvedId it) with _ | product
      · rw [hlk] at h
        exact absurd h (by simp)
      · rw [hlk] at h
        dsimp only at h
        by_cases ht : pyStrip it.tierId = ""
        · rw [if_pos ht] at h
          by_cases hup : product.price.getD 0 ≤ 0
          · rw [if_pos hup] at h
            exact absurd h (by simp)
          · rw [if_neg hup] at h
            rcases ih _ _ _ _ h line hl with hacc | hprops
            · rw [List.reverse_cons] at hacc
              rcases List.mem_append.mp hacc with h1 | h1
              · exact Or.inl h1
              · simp only [List.mem_singleton] at h1
                subst h1
                refine Or.inr ⟨⟨it.quantity.getD 0, rfl, hq1⟩, product, ?_, Or.inl ⟨?_, rfl⟩⟩
                · rw [itemResolvedId_of_productId _ (itemResolvedId_fix it) hid]
                  exact hlk
                · show pyStrip (pyStrip it.tierId) = ""
                  rw [pyStrip_idem]
                  exact ht
            · exact Or.inr hprops
        · rw [if_neg ht] at h
          rcases hft : findTier product (pyStrip it.tierId) with _ | tier
          · rw [hft] at h
            exact absurd h (by simp)
          · rw [hft] at h
            dsimp only at h
            by_cases hup : tier.price.getD 0 ≤ 0
            · rw [if_pos hup] at h
              exact absurd h (by simp)
            · rw [if_neg hup] at h
              rcases ih _ _ _ _ h line hl with hacc | hprops
              · rw [List.reverse_cons] at hacc
                rcases List.mem_append.mp hacc with h1 | h1
                · exact Or.inl h1
                · simp only [List.mem_singleton] at h1
                  subst h1
                  refine Or.inr ⟨⟨it.quantity.getD 0, rfl, hq1⟩, product, ?_,
                    Or.inr ⟨tier, ?_, ?_, rfl⟩⟩
                  · rw [itemResolvedId_of_productId _ (itemResolvedId_fix it) hid]
                    exact hlk
                  · show pyStrip (pyStrip it.tierId) ≠ ""
                    rw [pyStrip_idem]
                    exact ht
                  · show findTier product (pyStrip (pyStrip it.tierId)) = some tier
                    rw [pyStrip_idem]
                    exact hft
              · exact Or.inr hprops

theorem prepareOrderItems_lines (sp : List Product) (raw : Option (List Item))
    (out : List Item) (total : ℚ) (h : prepareOrderItems sp raw = .ok (out, total)) :
    ∀ line ∈ out, (∃ q, line.quantity = some q ∧ 1 ≤ q) ∧
      linePriceOk (buildProductsById (loadProducts sp)) line := by
  rcases raw with _ | its
  · exact absurd h (by simp [prepareOrderItems])
  · rcases its with _ | ⟨i, rest⟩
    · exact absurd h (by simp [prepareOrderItems])
    · intro line hl
      rcases prepareGo_lines (buildProductsById (loadProducts sp)) (i :: rest) [] 0 out total h
          line hl with hacc | hp
      · simp at hacc
      · exact hp

/-- C3: price integrity. Client-submitted prices and totals are discarded:
(1) stripping every price, originalPrice, name and tierName field from the
submitted lines does not change the prepared order; (2) the client-supplied
order total never influences the checkout result; (3) every successfully
recorded order carries lines whose unit price is the current catalog price of
the resolved product or tier rounded to two decimals, quantities of at least
one, and a total equal to the server-side recomputation
round2(sum(price * quantity)) over those lines. -/
theorem price_integrity :
    (∀ sp its, prepareOrderItems sp (some (its.map scrubItem)) =
      prepareOrderItems sp (some its)) ∧
    (∀ now sp so od t u pm pv,
      shopBuyPurchase now sp so { od with total := t } u pm pv =
      shopBuyPurchase now sp so od u pm pv) ∧
    (∀ now sp so od u pm pv out nos,
      (shopBuyPurchase now sp so od u pm pv).response = .ok out →
      (shopBuyPurchase now sp so od u pm pv).savedOrders = some nos →
      nos = so ++ [out.1] ∧
      (∀ line ∈ out.1.items, (∃ q, line.quantity = some q ∧ 1 ≤ q) ∧
        linePriceOk (buildProductsById (loadProducts sp)) line) ∧
      out.1.total = round2 ((out.1.items.map
        (fun it => it.price.getD 0 * ((it.quantity.getD 0 : ℤ) : ℚ))).sum)) := by
  refine ⟨?_, ?_, ?_⟩
  · intro sp its
    rcases its with _ | ⟨i, rest⟩
    · rfl
    · exact prepareGo_scrub (buildProductsById (loadProducts sp)) (i :: rest) [] 0
  · intro now sp so od t u pm pv
    rfl
  · intro now sp so od u pm pv out nos hok hsav
    unfold shopBuyPurchase at hok hsav
    rcases hprep : prepareOrderPayload sp od with e | payload
    · rw [hprep] at hok
      exact absurd hok (by simp)
    · rw [hprep] at hok hsav
      dsimp only at hok hsav
      by_cases hcard : (pm == "card" && !pv) = true
      · rw [if_pos hcard] at hok
        exact absurd hok (by simp)
      · rw [if_neg hcard] at hok hsav
        unfold prepareOrderPayload at hprep
        rcases hpo : prepareOrderItems sp od.items with e2 | pr
        · rw [hpo] at hprep
          exact absurd hprep (by simp)
        · rw [hpo] at hprep
          dsimp only at hprep
          rcases pr with ⟨prepared, ptotal⟩
          obtain rfl := Except.ok.inj hprep
          unfold processPurchase at hok hsav
          dsimp only at hok hsav
          rcases prepared with _ | ⟨j, jrest⟩
          · simp at hsav
          · dsimp only at hok hsav
            rcases hdup : (if pyStrip od.id = "" then none
                else so.find? (fun o => pyStrip o.id = pyStrip od.id)) with _ | ex
            · rw [hdup] at hok hsav
              dsimp only at hok hsav
              rcases hres : reserveCheck (buildProductsById (loadProducts sp))
                  (j :: jrest) with _ | e2
              · rw [hres] at hok hsav
                dsimp only at hok hsav
                rcases halloc : allocateGo (buildProductsById (loadProducts sp)) []
                    (j :: jrest) with e3 | pr2
                · rw [halloc] at hok
                  exact absurd hok (by simp)
                · rw [halloc] at hok hsav
                  rcases pr2 with ⟨byId1, creds⟩
                  dsimp only at hok hsav
                  obtain rfl := Except.ok.inj hok
                  obtain rfl := Option.some.inj hsav
                  have hlines := prepareOrderItems_lines sp od.items (j :: jrest) ptotal hpo
                  refine ⟨rfl, hlines, ?_⟩
                  show orderTotalOf (j :: jrest) = _
                  exact orderTotalOf_simple (j :: jrest) (fun it hit => (hlines it hit).1)
              · rw [hres] at hsav
                simp at hsav
            · rw [hdup] at hsav
              dsimp only at hsav
              by_cases hsm : sameOwner u ex = true
              · rw [if_pos hsm] at hsav
                simp at hsav
              · rw [if_neg hsm] at hsav
                simp at hsav

/-- A checkout order carrying a forged line price for product p1. -/
def c3Order : OrderData :=
  { id := "o1", items := some [{ id := "L1", productId := "p1", quantity := some 2, price := some 999 }] }

/-- Witness for C3: substituting any forged client total (12345 here) into the
order leaves the entire checkout result unchanged. -/
theorem price_integrity_witness :
    shopBuyPurchase 0 [c6Prod] [] { c3Order with total := 12345 }
      { id := "u1" } "balance" false =
    shopBuyPurchase 0 [c6Prod] [] c3Order { id := "u1" } "balance" false :=
  price_integrity.2.1 0 [c6Prod] [] c3Order 12345 { id := "u1" } "balance" false

/-- A catalog with one product holding three credential keys, used to
exercise the reservation check. -/
def c2Prod : Product :=
  { id := "p", name := "P", price := some 1, inventory := some ["a", "b", "c"] }

/-- Two order lines, each requesting two units of the same product. -/
def c2Items : List Item :=
  [{ id := "L1", productId := "p", quantity := some 2 },
   { id := "L2", productId := "p", quantity := some 2 }]

/-- Counterexample for C2: with three keys in stock, a two-line order asking
2 + 2 units of the same product passes the per-line reservation check (each
line alone fits the initial inventory) and is accepted, but the second line
is delivered only the single remaining key "c" — a partial delivery the spec
says cannot happen. -/
theorem reservation_partial_delivery :
    ((processPurchase 0 [c2Prod] [] { id := "o2", items := some c2Items }
        { id := "u" } "balance").response.map (fun out => out.1.credentials)) =
      Except.ok [("L1", "a\nb"), ("L2", "c")] := by
  rfl

/-- C2 (amended): the reservation loop validates every line against the
freshly loaded inventory before any line is mutated, so whenever it finds an
offending line the whole order is rejected with that line's error and neither
products nor orders are written; for a line without tier the check fires
(with a 409 naming the product) exactly when the line's quantity exceeds the
product's deliverable inventory length. Lines are checked each against the
initial stock, not cumulatively. -/
theorem reservation_first_offender :
    (∀ now sp so od (u : UserData) pm (i : Item) rest e, od.items = some (i :: rest) →
      (if pyStrip od.id = "" then none
        else so.find? (fun o => pyStrip o.id = pyStrip od.id)) = none →
      reserveCheck (buildProductsById (loadProducts sp)) (i :: rest) = some e →
      processPurchase now sp so od u pm = { response := .error e }) ∧
    (∀ byId (it : Item) rest product, itemResolvedId it ≠ "" → 0 < it.quantity.getD 0 →
      pyStrip it.tierId = "" → mapLookup byId (itemResolvedId it) = some product →
      ((stripEntries (product.inventory.getD [])).length : ℤ) < it.quantity.getD 0 →
      reserveCheck byId (it :: rest) = some { status := 409, message := "not enough deliverable stock for " ++ product.name ++ ". Add stock keys in admin.", productId := itemResolvedId it }) := by
  constructor
  · intro now sp so od u pm i rest e hits hdup hres
    unfold processPurchase
    rw [hits]
    dsimp only
    rw [hdup]
    dsimp only
    rw [hres]
  · intro byId it rest product hid hq ht hlk hshort
    unfold reserveCheck
    rw [if_neg (by push_neg; exact ⟨hid, by omega⟩), hlk]
    dsimp only
    rw [if_pos ht, if_pos hshort]

/-- Witness for the amended C2: one line asking five units of a three-key
product is rejected with a 409 naming the product, and nothing is written. -/
theorem reservation_first_offender_witness :
    processPurchase 0 [c2Prod] [] { id := "o3", items := some [{ id := "L1", productId := "p", quantity := some 5 }] } { id := "u" } "balance" =
      { response := .error { status := 409, message := "not enough deliverable stock for P. Add stock keys in admin.", productId := "p" } } :=
  reservation_first_offender.1 0 [c2Prod] [] _ { id := "u" } "balance"
    { id := "L1", productId := "p", quantity := some 5 } [] _ rfl rfl rfl

theorem hexDigit_ascii (n : Nat) (h : n < 16) : (hexDigit n).toNat < 128 := by
  unfold hexDigit
  by_cases h10 : n < 10
  · rw [if_pos h10, show ('0'.toNat) = 48 from rfl, toNat_ofNat_valid (Or.inl (by omega))]
    omega
  · rw [if_neg h10, show ('a'.toNat) = 97 from rfl, toNat_ofNat_valid (Or.inl (by omega))]
    omega

theorem hex4_ascii (n : Nat) : ∀ c ∈ hex4 n, c.toNat < 128 := by
  intro c hc
  unfold hex4 at hc
  simp only [List.mem_cons, List.not_mem_nil, or_false] at hc
  rcases hc with rfl | rfl | rfl | rfl
  · exact hexDigit_ascii _ (by omega)
  · exact hexDigit_ascii _ (by omega)
  · exact hexDigit_ascii _ (by omega)
  · exact hexDigit_ascii _ (by omega)

theorem digitChar_ascii (n : Nat) (h : n < 10) : (digitChar n).toNat < 128 := by
  show (Char.ofNat ('0'.toNat + n)).toNat < 128
  rw [show ('0'.toNat) = 48 from rfl, toNat_ofNat_valid (Or.inl (by omega))]
  omega

theorem natToChars_ascii (n : Nat) : ∀ c ∈ natToChars n, c.toNat < 128 := by
  induction n using natToChars.induct with
  | case1 n h =>
    intro c hc
    rw [natToChars, if_pos h] at hc
    simp only [List.mem_singleton] at hc
    subst hc
    exact digitChar_ascii n h
  | case2 n h ih =>
    intro c hc
    rw [natToChars, if_neg h] at hc
    rcases List.mem_append.mp hc with h1 | h1
    · exact ih c h1
    · simp only [List.mem_singleton] at h1
      subst h1
      exact digitChar_ascii _ (by omega)

theorem intToChars_ascii (n : ℤ) : ∀ c ∈ intToChars n, c.toNat < 128 := by
  intro c hc
  unfold intToChars at hc
  by_cases h : n < 0
  · rw [if_pos h] at hc
    rcases List.mem_cons.mp hc with rfl | h1
    · decide
    · exact natToChars_ascii _ c h1
  · rw [if_neg h] at hc
    exact natToChars_ascii _ c hc

set_option maxHeartbeats 1000000 in
theorem escapeChar_ascii (c : Char) : ∀ e ∈ escapeChar c, e.toNat < 128 := by
  intro e he
  unfold escapeChar at he
  split_ifs at he with h1 h2 h3 h4 h5 h6 h7 h8 h9 h10
  · simp only [List.mem_cons, List.not_mem_nil, or_false] at he
    rcases he with rfl | rfl <;> decide
  · simp only [List.mem_cons, List.not_mem_nil, or_false] at he
    rcases he with rfl | rfl <;> decide
  · simp only [List.mem_cons, List.not_mem_nil, or_false] at he
    rcases he with rfl | rfl <;> decide
  · simp only [List.mem_cons, List.not_mem_nil, or_false] at he
    rcases he with rfl | rfl <;> decide
  · simp only [List.mem_cons, List.not_mem_nil, or_false] at he
    rcases he with rfl | rfl <;> decide
  · simp only [List.mem_cons, List.not_mem_nil, or_false] at he
    rcases he with rfl | rfl <;> decide
  · simp only [List.mem_cons, List.not_mem_nil, or_false] at he
    rcases he with rfl | rfl <;> decide
  · simp only [List.mem_cons, List.not_mem_nil, or_false] at he
    rcases he with rfl | rfl | hm
    · decide
    · decide
    · exact hex4_ascii _ e hm
  · simp only [List.mem_cons, List.not_mem_nil, or_false] at he
    subst he
    omega
  · simp only [List.mem_cons, List.not_mem_nil, or_false] at he
    rcases he with rfl | rfl | hm
    · decide
    · decide
    · exact hex4_ascii _ e hm
  · simp only [List.mem_append, List.mem_cons, List.not_mem_nil, or_false] at he
    rcases he with (rfl | rfl | hm) | (rfl | rfl | hm)
    · decide
    · decide
    · exact hex4_ascii _ e hm
    · decide
    · decide
    · exact hex4_ascii _ e hm

theorem jsonStrLit_ascii (t : String) : ∀ e ∈ jsonStrLit t, e.toNat < 128 := by
  intro e he
  unfold jsonStrLit at he
  rcases List.mem_cons.mp he with rfl | h
  · decide
  · rcases List.mem_append.mp h with h1 | h1
    · obtain ⟨l2, hl2, hmem⟩ := List.mem_join.mp h1
      obtain ⟨c0, -, rfl⟩ := List.mem_map.mp hl2
      exact escapeChar_ascii c0 e hmem
    · simp only [List.mem_singleton] at h1
      subst h1
      decide

theorem payloadChars_ascii (p : SessionPayload) : ∀ e ∈ payloadChars p, e.toNat < 128 := by
  intro e he
  unfold payloadChars at he
  rcases List.mem_cons.mp he with rfl | h
  · rw [toNat_ofNat_valid (Or.inl (by omega))]
    omega
  · rcases List.mem_append.mp h with h1 | h
    · exact (by decide : ∀ x ∈ ("\"email\":" : String).data, x.toNat < 128) e h1
    · rcases List.mem_append.mp h with h1 | h
      · exact jsonStrLit_ascii _ e h1
      · rcases List.mem_append.mp h with h1 | h
        · exact (by decide : ∀ x ∈ (",\"exp\":" : String).data, x.toNat < 128) e h1
        · rcases List.mem_append.mp h with h1 | h
          · exact intToChars_ascii _ e h1
          · rcases List.mem_append.mp h with h1 | h
            · exact (by decide : ∀ x ∈ (",\"iat\":" : String).data, x.toNat < 128) e h1
            · rcases List.mem_append.mp h with h1 | h
              · exact intToChars_ascii _ e h1
              · rcases List.mem_append.mp h with h1 | h
                · exact (by decide : ∀ x ∈ (",\"role\":" : String).data, x.toNat < 128) e h1
                · rcases List.mem_append.mp h with h1 | h
                  · exact jsonStrLit_ascii _ e h1
                  · rcases List.mem_append.mp h with h1 | h
                    · exact (by decide : ∀ x ∈ (",\"uid\":" : String).data, x.toNat < 128) e h1
                    · rcases List.mem_append.mp h with h1 | h
                      · exact jsonStrLit_ascii _ e h1
                      · simp only [List.mem_singleton] at h
                        subst h
                        rw [toNat_ofNat_valid (Or.inl (by omega))]
                        omega

theorem splitFirstDot_append (l r : List Char) (h : ∀ c ∈ l, c ≠ '.') :
    splitFirstDot (l ++ '.' :: r) = some (l, r) := by
  induction l with
  | nil => simp [splitFirstDot]
  | cons x xs ih =>
    simp only [List.cons_append, splitFirstDot]
    rw [if_neg (h x (by simp)), List.append_eq, ih (fun c hc => h c (by simp [hc]))]
    rfl

theorem bytesToStr_strToBytes (t : String) (h : ∀ c ∈ t.data, c.toNat < 128) :
    bytesToStr (strToBytes t) = some t := by
  unfold bytesToStr strToBytes
  have hall : (t.data.map Char.toNat).all (fun b => decide (b < 128)) = true := by
    rw [List.all_eq_true]
    intro b hb
    obtain ⟨c, hc, rfl⟩ := List.mem_map.mp hb
    simpa using h c hc
  rw [if_pos hall, List.map_map]
  have hid : t.data.map (Char.ofNat ∘ Char.toNat) = t.data := by
    have h1 : t.data.map (Char.ofNat ∘ Char.toNat) = t.data.map id :=
      List.map_congr_left (fun c _ => Char.ofNat_toNat c)
    rw [h1, List.map_id]
  rw [hid]

theorem roleNorm_idem (r : String) : roleNorm (roleNorm r) = roleNorm r := by
  unfold roleNorm
  by_cases h : pyLower (pyStrip r) = "admin"
  · rw [if_pos h, if_pos (by decide)]
  · rw [if_neg h, if_neg (by decide)]

/-- The payload claims `_issue_shop_session_token` serializes. -/
def issuePayload (u : UserData) (ttl now : ℤ) : SessionPayload :=
  { uid := pyStrip u.id, email := pyLower (pyStrip u.email), role := roleNorm u.role,
    iat := now, exp := now + ttl }

set_option maxHeartbeats 2000000 in
/-- C8: session token round trip. (1) A token freshly minted by
`_issue_shop_session_token` for a user with non-blank id and email verifies
while unexpired, for any HMAC primitive whose digest is a non-empty byte
string, and yields the same stripped uid, case-folded email and normalized
role. (2) Conversely, any token that verifies must split at the first dot
into a payload whose recomputed signature equals the presented one
byte-for-byte, a payload that base64url-decodes, UTF-8-decodes and
JSON-parses, an expiry strictly after the check time, and non-blank uid and
email — so a wrong signature, an undecodable payload, or `exp <= now` each
yield no session. -/
theorem session_token_round_trip :
    (∀ (mac : String → String → List Nat) (secret : String) (u : UserData) (ttl now vnow : ℤ),
      pyStrip u.id ≠ "" →
      pyLower (pyStrip u.email) ≠ "" →
      vnow < now + ttl →
      mac secret (b64UrlEncode (strToBytes (payloadString (issuePayload u ttl now)))) ≠ [] →
      (∀ b ∈ mac secret (b64UrlEncode (strToBytes (payloadString (issuePayload u ttl now)))),
        b < 256) →
      parseShopSessionToken mac secret vnow (issueShopSessionToken mac secret ttl u now) =
        some { id := pyStrip u.id, email := pyLower (pyStrip u.email),
               role := roleNorm u.role }) ∧
    (∀ mac secret now token su, parseShopSessionToken mac secret now token = some su →
      ∃ pb sb payload bytes payloadRaw,
        splitFirstDot (pyStrip token).data = some (pb, sb) ∧
        String.mk sb ≠ "" ∧
        String.mk sb = signSessionPayload mac secret (String.mk pb) ∧
        b64UrlDecode (String.mk pb) = some bytes ∧
        bytesToStr bytes = some payloadRaw ∧
        parsePayloadChars payloadRaw.data = some payload ∧
        now < payload.exp ∧
        pyStrip payload.uid ≠ "" ∧
        pyLower (pyStrip payload.email) ≠ "" ∧
        su = { id := pyStrip payload.uid, email := pyLower (pyStrip payload.email),
               role := roleNorm payload.role }) := by
  constructor
  · intro mac secret u ttl now vnow huid hemail hexp hmne hmlt
    have hascii := payloadChars_ascii (issuePayload u ttl now)
    have hblt : ∀ b ∈ strToBytes (payloadString (issuePayload u ttl now)), b < 256 := by
      intro b hb
      obtain ⟨c, hc, rfl⟩ := List.mem_map.mp hb
      have := hascii c hc
      omega
    have hbne : strToBytes (payloadString (issuePayload u ttl now)) ≠ [] := by
      show (payloadChars (issuePayload u ttl now)).map Char.toNat ≠ []
      unfold payloadChars
      simp
    have hv64 := b64Vals_lt _ hblt
    have hpns : ∀ c ∈ (b64Vals (strToBytes (payloadString (issuePayload u ttl now)))).map b64Char,
        isPySpace c = false := by
      intro c hc
      obtain ⟨v, hv, rfl⟩ := List.mem_map.mp hc
      exact b64Char_not_space ⟨v, hv64 v hv⟩
    have hpnd : ∀ c ∈ (b64Vals (strToBytes (payloadString (issuePayload u ttl now)))).map b64Char,
        c ≠ '.' := by
      intro c hc
      obtain ⟨v, hv, rfl⟩ := List.mem_map.mp hc
      exact b64Char_ne_dot ⟨v, hv64 v hv⟩
    have hm64 := b64Vals_lt _ hmlt
    have hsns : ∀ c ∈ (b64Vals (mac secret (b64UrlEncode (strToBytes
        (payloadString (issuePayload u ttl now)))))).map b64Char, isPySpace c = false := by
      intro c hc
      obtain ⟨v, hv, rfl⟩ := List.mem_map.mp hc
      exact b64Char_not_space ⟨v, hm64 v hv⟩
    show parseShopSessionToken mac secret vnow
      (b64UrlEncode (strToBytes (payloadString (issuePayload u ttl now))) ++ "." ++
        b64UrlEncode (mac secret (b64UrlEncode (strToBytes
          (payloadString (issuePayload u ttl now)))))) = _
    unfold parseShopSessionToken
    dsimp only
    have hdata : (b64UrlEncode (strToBytes (payloadString (issuePayload u ttl now))) ++ "." ++
        b64UrlEncode (mac secret (b64UrlEncode (strToBytes
          (payloadString (issuePayload u ttl now)))))).data =
        ((b64Vals (strToBytes (payloadString (issuePayload u ttl now)))).map b64Char) ++
          '.' :: ((b64Vals (mac secret (b64UrlEncode (strToBytes
            (payloadString (issuePayload u ttl now)))))).map b64Char) := by
      simp only [String.data_append, List.append_assoc]
      rfl
    have htok : pyStrip (b64UrlEncode (strToBytes (payloadString (issuePayload u ttl now))) ++
        "." ++ b64UrlEncode (mac secret (b64UrlEncode (strToBytes
          (payloadString (issuePayload u ttl now)))))) =
        b64UrlEncode (strToBytes (payloadString (issuePayload u ttl now))) ++ "." ++
        b64UrlEncode (mac secret (b64UrlEncode (strToBytes
          (payloadString (issuePayload u ttl now))))) := by
      unfold pyStrip
      apply String.ext
      show stripList _ = _
      rw [hdata]
      refine stripList_self _ ?_
      intro c hc
      rcases List.mem_append.mp hc with h1 | h1
      · exact hpns c h1
      · rcases List.mem_cons.mp h1 with rfl | h2
        · decide
        · exact hsns c h2
    rw [htok, hdata, splitFirstDot_append _ _ hpnd]
    dsimp only
    have hsg : String.mk ((b64Vals (mac secret (b64UrlEncode (strToBytes
        (payloadString (issuePayload u ttl now)))))).map b64Char) =
        signSessionPayload mac secret (String.mk ((b64Vals (strToBytes
          (payloadString (issuePayload u ttl now)))).map b64Char)) := rfl
    have hsne : String.mk ((b64Vals (mac secret (b64UrlEncode (strToBytes
        (payloadString (issuePayload u ttl now)))))).map b64Char) ≠ "" := by
      intro hc
      have h1 := congrArg String.data hc
      simp only at h1
      exact b64Vals_ne_nil _ hmne (by simpa using h1)
    rw [if_neg (by push_neg; exact ⟨hsne, hsg⟩)]
    rw [show String.mk ((b64Vals (strToBytes (payloadString (issuePayload u ttl now)))).map
      b64Char) = b64UrlEncode (strToBytes (payloadString (issuePayload u ttl now))) from rfl]
    rw [b64UrlDecode_b64UrlEncode _ hbne hblt]
    dsimp only
    rw [bytesToStr_strToBytes _ (fun c hc => by have := hascii c hc; omega)]
    dsimp only
    rw [show (payloadString (issuePayload u ttl now)).data =
      payloadChars (issuePayload u ttl now) from rfl]
    rw [parsePayload_payloadChars]
    dsimp only
    have hueq : pyStrip (issuePayload u ttl now).uid = pyStrip u.id := pyStrip_idem u.id
    have heeq : pyLower (pyStrip (issuePayload u ttl now).email) = pyLower (pyStrip u.email) := by
      show pyLower (pyStrip (pyLower (pyStrip u.email))) = pyLower (pyStrip u.email)
      rw [pyStrip_pyLower, pyLower_idem, pyStrip_idem]
    have hreq : roleNorm (issuePayload u ttl now).role = roleNorm u.role := roleNorm_idem u.role
    have hguard : ¬(pyStrip (issuePayload u ttl now).uid = "" ∨
        pyLower (pyStrip (issuePayload u ttl now).email) = "" ∨
        (issuePayload u ttl now).exp ≤ vnow) := by
      push_neg
      exact ⟨by rw [hueq]; exact huid, by rw [heeq]; exact hemail, hexp⟩
    rw [if_neg hguard, hueq, heeq, hreq]
  · intro mac secret now token su h
    unfold parseShopSessionToken at h
    dsimp only at h
    rcases hsp : splitFirstDot (pyStrip token).data with _ | pr
    · rw [hsp] at h
      simp at h
    · rw [hsp] at h
      rcases pr with ⟨pb, sb⟩
      dsimp only at h
      by_cases hcond : String.mk sb = "" ∨
          String.mk sb ≠ signSessionPayload mac secret (String.mk pb)
      · rw [if_pos hcond] at h
        simp at h
      · rw [if_neg hcond] at h
        push_neg at hcond
        obtain ⟨hne, hseq⟩ := hcond
        rcases hdec : b64UrlDecode (String.mk pb) with _ | bytes
        · rw [hdec] at h
          simp at h
        · rw [hdec] at h
          dsimp only at h
          rcases hbs : bytesToStr bytes with _ | payloadRaw
          · rw [hbs] at h
            simp at h
          · rw [hbs] at h
            dsimp only at h
            rcases hpp : parsePayloadChars payloadRaw.data with _ | payload
            · rw [hpp] at h
              simp at h
            · rw [hpp] at h
              dsimp only at h
              by_cases hg : pyStrip payload.uid = "" ∨
                  pyLower (pyStrip payload.email) = "" ∨ payload.exp ≤ now
              · rw [if_pos hg] at h
                simp at h
              · rw [if_neg hg] at h
                push_neg at hg
                obtain ⟨h1, h2, h3⟩ := hg
                exact ⟨pb, sb, payload, bytes, payloadRaw, rfl, hne, hseq, hdec, hbs, hpp,
                  h3, h1, h2, (Option.some.inj h).symm⟩

/-- Witness for C8: with a fixed three-byte digest primitive, a token minted
at time 0 with ttl 100 for user u1 still verifies at time 50 and returns the
normalized identity. -/
theorem session_token_round_trip_witness :
    parseShopSessionToken (fun _ _ => [1, 2, 3]) "s" 50
      (issueShopSessionToken (fun _ _ => [1, 2, 3]) "s" 100 { id := "u1", email := "E@x" } 0) =
      some { id := pyStrip "u1", email := pyLower (pyStrip "E@x"), role := roleNorm "" } :=
  session_token_round_trip.1 (fun _ _ => [1, 2, 3]) "s" { id := "u1", email := "E@x" } 100 0 50
    (by decide) (by decide) (by decide) (by decide) (by decide)

theorem mapLookup_mapInsert_self {α : Type} (m : List (String × α)) (k : String) (v : α) :
    mapLookup (mapInsert m k v) k = some v := by
  unfold mapInsert
  by_cases hany : m.any (fun kv => kv.1 = k) = true
  · rw [if_pos hany]
    induction m with
    | nil => simp at hany
    | cons kv tl ih =>
      by_cases hk : kv.1 = k
      · simp only [List.map_cons, if_pos hk]
        simp [mapLookup, List.find?_cons_of_pos]
      · simp only [List.map_cons, if_neg hk]
        have htl : tl.any (fun kv => kv.1 = k) = true := by
          simp only [List.any_cons] at hany
          rcases Bool.or_eq_true_iff.mp hany with h1 | h1
          · exact absurd (by simpa using h1) hk
          · exact h1
        have := ih htl
        simpa [mapLookup, List.find?_cons_of_neg, hk] using this
  · rw [if_neg hany]
    induction m with
    | nil => simp [mapLookup, List.find?_cons_of_pos]
    | cons kv tl ih =>
      have hk : ¬ kv.1 = k := by
        intro hc
        exact hany (by simp [List.any_cons, hc])
      have htl : ¬ tl.any (fun kv => kv.1 = k) = true := by
        intro hc
        exact hany (by simp [List.any_cons, hc])
      simpa [mapLookup, List.find?_cons_of_neg, hk] using ih htl

theorem mapLookup_mapRemove_self {α : Type} (m : List (String × α)) (k : String) :
    mapLookup (mapRemove m k) k = none := by
  unfold mapRemove mapLookup
  rw [Option.map_eq_none', List.find?_eq_none]
  intro kv hkv
  have := List.of_mem_filter hkv
  simpa using this

theorem mapLookup_filter_none {α : Type} (m : List (String × α)) (k : String)
    (p : String × α → Bool) (h : mapLookup m k = none) :
    mapLookup (m.filter p) k = none := by
  unfold mapLookup at h ⊢
  rw [Option.map_eq_none', List.find?_eq_none] at h ⊢
  intro kv hkv
  exact h kv (List.mem_of_mem_filter hkv)

/-- C9: OTP attempt cap. (1) A wrong code against a live OTP session returns
401 and increments that session's attempt counter; while the incremented
count is still below the cap the entry survives with the new count, and as
soon as it reaches the cap (the 5th wrong submission under the default cap
of 5, starting from 0) the token entry is deleted. (2) Once the token is
absent from the (purged) store, every verify call with it — the correct code
included — fails with 401. (3) Purging never resurrects a missing token, so
the invalidation persists across subsequent requests. -/
theorem otp_attempt_cap :
    (∀ (now maxA : ℤ) sessions (users : List UserData) tok code entry,
      pyStrip tok ≠ "" → pyStrip code ≠ "" →
      mapLookup (purgeExpiredOtps now sessions) (pyStrip tok) = some entry →
      pyStrip code ≠ pyStrip entry.code →
      (shopAuthVerifyOtp now maxA sessions users tok code).status = 401 ∧
      (entry.attempts + 1 < maxA →
        mapLookup (shopAuthVerifyOtp now maxA sessions users tok code).sessions (pyStrip tok) =
          some { entry with attempts := entry.attempts + 1 }) ∧
      (entry.attempts + 1 ≥ maxA →
        mapLookup (shopAuthVerifyOtp now maxA sessions users tok code).sessions (pyStrip tok) =
          none)) ∧
    (∀ (now maxA : ℤ) sessions (users : List UserData) tok code,
      pyStrip tok ≠ "" → pyStrip code ≠ "" →
      mapLookup (purgeExpiredOtps now sessions) (pyStrip tok) = none →
      (shopAuthVerifyOtp now maxA sessions users tok code).status = 401) ∧
    (∀ (now : ℤ) (s : List (String × OtpEntry)) k,
      mapLookup s k = none → mapLookup (purgeExpiredOtps now s) k = none) := by
  refine ⟨?_, ?_, ?_⟩
  · intro now maxA sessions users tok code entry htok hcode hlook hwrong
    unfold shopAuthVerifyOtp
    rw [if_neg (by push_neg; exact ⟨htok, hcode⟩)]
    dsimp only
    rw [hlook]
    dsimp only
    rw [if_pos hwrong]
    refine ⟨rfl, ?_, ?_⟩
    · intro hlt
      show mapLookup (if entry.attempts + 1 ≥ maxA then _ else _) (pyStrip tok) = _
      rw [if_neg (by omega)]
      exact mapLookup_mapInsert_self _ _ _
    · intro hge
      show mapLookup (if entry.attempts + 1 ≥ maxA then _ else _) (pyStrip tok) = _
      rw [if_pos hge]
      exact mapLookup_mapRemove_self _ _
  · intro now maxA sessions users tok code htok hcode hlook
    unfold shopAuthVerifyOtp
    rw [if_neg (by push_neg; exact ⟨htok, hcode⟩)]
    dsimp only
    rw [hlook]
  · intro now s k h
    exact mapLookup_filter_none s k _ h

/-- The OTP store for the witness: one live session for token t with code
1234 and four failed attempts already recorded. -/
def c9Sessions : List (String × OtpEntry) :=
  [("t", { email := "e@x", code := "1234", expiresAt := 10, attempts := 4 })]

/-- Witness for C9: under the default cap of 5, a 5th wrong code on token t
answers 401 and deletes the session entry. -/
theorem otp_attempt_cap_witness :
    (shopAuthVerifyOtp 0 5 c9Sessions [] "t" "9").status = 401 ∧
    ((4 : ℤ) + 1 < 5 →
      mapLookup (shopAuthVerifyOtp 0 5 c9Sessions [] "t" "9").sessions (pyStrip "t") =
        some { email := "e@x", code := "1234", expiresAt := 10, attempts := 4 + 1 }) ∧
    ((4 : ℤ) + 1 ≥ 5 →
      mapLookup (shopAuthVerifyOtp 0 5 c9Sessions [] "t" "9").sessions (pyStrip "t") = none) :=
  otp_attempt_cap.1 0 5 c9Sessions [] "t" "9"
    { email := "e@x", code := "1234", expiresAt := 10, attempts := 4 }
    (by decide) (by decide) (by decide) (by decide)

theorem sameOwner_iff (u : UserData) (ex : Order) :
    sameOwner u ex = true ↔
      ((pyStrip u.id ≠ "" ∧ pyStrip ex.userId = pyStrip u.id) ∨
       (pyLower (pyStrip u.email) ≠ "" ∧
        pyLower (pyStrip ex.user.email) = pyLower (pyStrip u.email))) := by
  simp [sameOwner, Bool.or_eq_true, Bool.and_eq_true, bne_iff_ne, beq_iff_eq]

theorem processPurchase_duplicate (now : ℤ) (sp : List Product) (so : List Order)
    (oid : String) (i : Item) (rest : List Item) (t : ℚ) (u : UserData) (m : String) (ex : Order)
    (hid : pyStrip oid ≠ "")
    (hfind : so.find? (fun o => pyStrip o.id = pyStrip oid) = some ex) :
    processPurchase now sp so { id := oid, items := some (i :: rest), total := t } u m =
      (if sameOwner u ex then
        { response := .ok (ex, (loadProducts sp).map publicProduct) }
      else
        { response := .error { status := 409, message := "duplicate order id" } }) := by
  unfold processPurchase
  simp only [if_neg hid, hfind]

/-- C1: purchase idempotency. For every stored state and every purchase whose
client-supplied order id (stripped, non-blank) equals the id of an
already-recorded order, if the requesting user's id or case-folded email
matches the existing order's owner the pipeline returns that existing Order
unchanged (and writes neither products nor orders, so no inventory is
decremented again); if the existing order belongs to a different owner the
request is rejected as a 409 conflict, also without any write. The first
matching stored order governs, as in the source's scan. -/
theorem purchase_idempotency (now : ℤ) (sp : List Product) (so : List Order)
    (oid : String) (i : Item) (rest : List Item) (t : ℚ) (u : UserData) (m : String) (ex : Order)
    (hid : pyStrip oid ≠ "")
    (hfind : so.find? (fun o => pyStrip o.id = pyStrip oid) = some ex) :
    (((pyStrip u.id ≠ "" ∧ pyStrip ex.userId = pyStrip u.id) ∨
      (pyLower (pyStrip u.email) ≠ "" ∧
       pyLower (pyStrip ex.user.email) = pyLower (pyStrip u.email))) →
      processPurchase now sp so { id := oid, items := some (i :: rest), total := t } u m =
        { response := .ok (ex, (loadProducts sp).map publicProduct),
          savedProducts := none, savedOrders := none }) ∧
    (¬ ((pyStrip u.id ≠ "" ∧ pyStrip ex.userId = pyStrip u.id) ∨
      (pyLower (pyStrip u.email) ≠ "" ∧
       pyLower (pyStrip ex.user.email) = pyLower (pyStrip u.email))) →
      processPurchase now sp so { id := oid, items := some (i :: rest), total := t } u m =
        { response := .error { status := 409, message := "duplicate order id" },
          savedProducts := none, savedOrders := none }) := by
  have hkey := processPurchase_duplicate now sp so oid i rest t u m ex hid hfind
  constructor
  · intro hown
    rw [hkey, if_pos ((sameOwner_iff u ex).mpr hown)]
  · intro hnot
    have hfalse : sameOwner u ex = false := by
      rcases hso : sameOwner u ex with _ | _
      · rfl
      · exact absurd ((sameOwner_iff u ex).mp hso) hnot
    rw [hkey, hfalse]
    simp

/-- The stored order used by the C1 witness. -/
def c1SampleOrder : Order :=
  { id := "ord1", userId := "u1", createdAt := 0, paymentMethod := "card",
    user := { id := "u1", email := "a@b.c" }, items := [], total := 5,
    status := "completed", credentials := [] }

/-- Closed witness for the C1 theorem: both owner-match and owner-conflict
branches exercised at a concrete state. -/
theorem purchase_idempotency_witness :
    (processPurchase 7 [] [c1SampleOrder]
      { id := "ord1", items := some [{ id := "L1", productId := "p", quantity := some 1 }],
        total := 99 }
      { id := "u1", email := "a@b.c" } "card" =
      { response := .ok (c1SampleOrder, []), savedProducts := none, savedOrders := none }) ∧
    (processPurchase 7 [] [c1SampleOrder]
      { id := "ord1", items := some [{ id := "L1", productId := "p", quantity := some 1 }],
        total := 99 }
      { id := "u2", email := "z@b.c" } "card" =
      { response := .error { status := 409, message := "duplicate order id" },
        savedProducts := none, savedOrders := none }) := by
  constructor
  · exact (purchase_idempotency 7 [] _ "ord1" _ [] 99 _ "card" c1SampleOrder
      (by decide) (by decide)).1 (Or.inl (by decide))
  · exact (purchase_idempotency 7 [] _ "ord1" _ [] 99 _ "card" c1SampleOrder
      (by decide) (by decide)).2 (by decide)

/-- Closed witness for the amended C10 theorem. -/
theorem confirm_ownership_rejected_403_witness :
    shopConfirmPaymentCheck
      [("t3", { order := {}, user := { id := "owner", email := "o@x.y" },
                paymentMethod := "card", completed := false, createdAt := 0 })]
      { id := "other", email := "o@x.y" } "t3" "" =
      .reject { status := 403, message := "payment token does not belong to this user" } :=
  confirm_ownership_rejected_403 _ _ "t3" ""
    { order := {}, user := { id := "owner", email := "o@x.y" },
      paymentMethod := "card", completed := false, createdAt := 0 }
    (by decide) (by decide) (by decide) (Or.inl (by decide))


end Shop
